import Mathlib

/-!
# Hexagonal grid coordinates and layouts

A shallow embedding of the `maths` package (`hex.go`, `hex_grid.go`, `vector2d.go`):
the axial hex coordinate type with its topology operations, and the layout that
projects hexes to the plane and back.

Conventions of the embedding:

* `int64` values are integers kept in `[-2^63, 2^63)`; every `int64` arithmetic
  operation is followed by `wrap64` (two's complement wrap-around).
* `float64` values are elements of an ordered field `K` (exact arithmetic); the
  conversion of an `int64` to `float64` is the cast into `K`.
* A Go `for` loop becomes a recursion on its trip count, or a fold over the values of
  its counter, that passes the loop's variables along explicitly.
* An operation that can fault, or yield no finite number, returns an `Option`.
* A method with a pointer receiver returns its result together with the receiver as
  the method leaves it.
-/

namespace Maths

/-! ## Numeric kinds -/

/-- Two's complement wrap-around of an integer into the `int64` range. -/
def wrap64 (x : Int) : Int := (x + 2 ^ 63) % 2 ^ 64 - 2 ^ 63

/-- An integer is a value of type `int64`. -/
def InInt64 (x : Int) : Prop := -(2 ^ 63) ≤ x ∧ x < 2 ^ 63

instance (x : Int) : Decidable (InInt64 x) := by
  unfold InInt64
  exact inferInstance

/-- The type constraint `interface { int64 | float64 }`: the arithmetic the generic
code uses at a numeric kind `T`, and the conversion `T(x)` of an `int64` (or `int`)
value `x`. -/
class Numeric (T : Type) where
  /-- The operator `+` at `T`. -/
  add : T → T → T
  /-- The operator `-` at `T`. -/
  sub : T → T → T
  /-- The operator `*` at `T`. -/
  mul : T → T → T
  /-- The operator `/` at `T`; `none` when it yields no value of the model: a run-time
  panic (division by zero) at `int64`, an infinity or NaN at `float64`. -/
  div : T → T → Option T
  /-- The conversion `T(x)` of an integer value. -/
  ofInt64 : Int → T

/-- The kind `int64`: wrapping arithmetic. -/
instance int64 : Numeric Int where
  add a b := wrap64 (a + b)
  sub a b := wrap64 (a - b)
  mul a b := wrap64 (a * b)
  div a b := if b = 0 then none else some (wrap64 (Int.tdiv a b))
  ofInt64 x := x

/-- The kind `float64`, read as exact arithmetic in an ordered field. -/
instance (priority := low) float64 {K : Type} [LinearOrderedField K] : Numeric K where
  add a b := a + b
  sub a b := a - b
  mul a b := a * b
  div a b := if b = 0 then none else some (a / b)
  ofInt64 x := (x : K)

/-- The conversion `float64(x)` of an `int64` value (exact in the representable range). -/
def int64ToFloat64 (K : Type) [LinearOrderedField K] (x : Int) : K := (x : K)

/-- The conversion `int(x)` of a finite `float64` value: truncation toward zero. -/
def float64ToInt {K : Type} [LinearOrderedField K] [FloorRing K] (x : K) : Int :=
  if 0 ≤ x then ⌊x⌋ else ⌈x⌉

/-- The `float64` quotient `x / y`; `none` when it is not a finite number (`y = 0`: an
infinity, or NaN for `0 / 0`). -/
def float64Div {K : Type} [LinearOrderedField K] (x y : K) : Option K :=
  if y = 0 then none else some (x / y)

/-- The conversion `int64(x)` of a `float64` value: truncation toward zero of a finite
value; the language leaves the result for a NaN implementation-dependent, it is the
parameter `nan`. -/
def float64ToInt64 {K : Type} [LinearOrderedField K] [FloorRing K] (nan : Int) :
    Option K → Int
  | some x => float64ToInt x
  | none => nan

/-- The conversion `int(x)` of a `float64` value to the bounded type `int`: truncation
toward zero when the truncated value is an `int` value; otherwise the language leaves
the result implementation-dependent, it is `outOfRange x`. -/
def float64ToIntBounded {K : Type} [LinearOrderedField K] [FloorRing K]
    (outOfRange : K → Int) (x : K) : Int :=
  if InInt64 (float64ToInt x) then float64ToInt x else outOfRange x

/-! ## hex.go -/

/-- Hex represents a hexagonal cell in axial coordinates (q,r). -/
structure Hex (T : Type) where
  Q : T
  R : T
deriving DecidableEq

namespace Hex

variable {T : Type}

/-- NewHex creates a new Hex with the given coordinates. -/
def NewHex (q r : T) : Hex T := { Q := q, R := r }

/-- Add returns the sum of two hexes. -/
def Add [Numeric T] (h other : Hex T) : Hex T :=
  { Q := Numeric.add h.Q other.Q, R := Numeric.add h.R other.R }

/-- Subtract returns the difference between two hexes. -/
def Subtract [Numeric T] (h other : Hex T) : Hex T :=
  { Q := Numeric.sub h.Q other.Q, R := Numeric.sub h.R other.R }

/-- Multiply returns the hex multiplied by a scalar. -/
def Multiply [Numeric T] (h : Hex T) (scalar : T) : Hex T :=
  { Q := Numeric.mul h.Q scalar, R := Numeric.mul h.R scalar }

/-- Divide returns the hex divided by a scalar; `none` when a division yields no value. -/
def Divide [Numeric T] (h : Hex T) (scalar : T) : Option (Hex T) :=
  match Numeric.div h.Q scalar, Numeric.div h.R scalar with
  | some q, some r => some { Q := q, R := r }
  | _, _ => none

/-- Distance returns the distance between two hexes. `toFloat64` is the conversion
`float64(·)` at the hex's numeric kind. In the source's last line only the third
summand is divided by two. -/
def Distance {K : Type} [LinearOrderedField K] (toFloat64 : T → K) (h other : Hex T) : K :=
  let q1 := toFloat64 h.Q
  let r1 := toFloat64 h.R
  let q2 := toFloat64 other.Q
  let r2 := toFloat64 other.R
  let s1 := -q1 - r1
  let s2 := -q2 - r2
  |q1 - q2| + |r1 - r2| + |s1 - s2| / 2

/-- LineTo returns a line of hexes from this hex to another. `toFloat64` and `ofFloat64`
are the conversions `float64(·)` and `T(·)` at the hex's numeric kind; the interpolation
parameter `t` is `none` when `float64(i) / float64(distance)` is not a finite number.
The slice `results` is filled at every index `0, ..., distance`. -/
def LineTo {K : Type} [LinearOrderedField K] [FloorRing K] (toFloat64 : T → K)
    (ofFloat64 : Option K → T) (h other : Hex T) : List (Hex T) :=
  let distance : Int := float64ToInt (Distance toFloat64 h other)
  (List.range (distance + 1).toNat).map fun (i : Nat) =>
    let t : Option K := float64Div (((i : Int) : K)) ((distance : K))
    { Q := ofFloat64 (t.map fun t => toFloat64 h.Q * (1 - t) + toFloat64 other.Q * t),
      R := ofFloat64 (t.map fun t => toFloat64 h.R * (1 - t) + toFloat64 other.R * t) }

end Hex

/-- The table `directions` of the six directions in a hexagonal grid. -/
def directions : List (Hex Int) :=
  [{ Q := 1, R := 0 }, { Q := 0, R := 1 },
   { Q := -1, R := 1 }, { Q := -1, R := 0 },
   { Q := 0, R := -1 }, { Q := 1, R := -1 }]

/-- The expression `Hex[T]{Q: T(directions[i].Q), R: T(directions[i].R)}`. -/
def directionAt (T : Type) [Numeric T] (i : Nat) : Hex T :=
  { Q := Numeric.ofInt64 (directions.getD i { Q := 0, R := 0 }).Q,
    R := Numeric.ofInt64 (directions.getD i { Q := 0, R := 0 }).R }

namespace Hex

variable {T : Type}

/-- Neighbours returns all adjacent hexes: `result[i]` is set for each index `i`
of `directions`. -/
def Neighbours [Numeric T] (h : Hex T) : List (Hex T) :=
  directions.map fun dir =>
    { Q := Numeric.add h.Q (Numeric.ofInt64 dir.Q),
      R := Numeric.add h.R (Numeric.ofInt64 dir.R) }

/-- The inner loop of `Circle` (`for j := 0; j < radius; j++`) run for `n` rounds on
the loop variables `(hex, results)`: append the current hex, then step. -/
def circleSide [Numeric T] (d : Hex T) : Nat → Hex T × List (Hex T) → Hex T × List (Hex T)
  | 0, s => s
  | n + 1, (hex, results) => circleSide d n (hex.Add d, results ++ [hex])

/-- Circle returns all hexes at the given radius. -/
def Circle [Numeric T] (h : Hex T) (radius : Int) : List (Hex T) :=
  if radius < 0 then []
  else
    let hex := h.Add { Q := Numeric.ofInt64 radius, R := Numeric.ofInt64 (wrap64 (-radius)) }
    ((List.range 6).foldl
      (fun s i => circleSide (directionAt T i) radius.toNat s) (hex, [])).2

/-- The inner loop of `SpiralRing` run for `n` rounds on the loop variables
`(hex, results)`: step, then append the hex stepped to. -/
def spiralRingSide [Numeric T] (d : Hex T) :
    Nat → Hex T × List (Hex T) → Hex T × List (Hex T)
  | 0, s => s
  | n + 1, (hex, results) => spiralRingSide d n (hex.Add d, results ++ [hex.Add d])

/-- SpiralRing returns a single ring of hexes at the given radius. -/
def SpiralRing [Numeric T] (h : Hex T) (radius : Int) : List (Hex T) :=
  if radius < 0 then []
  else if radius = 0 then [h]
  else
    let directionScale : Hex Int := (directions.getD 0 { Q := 0, R := 0 }).Multiply radius
    let hex := h.Add { Q := Numeric.ofInt64 directionScale.Q,
                       R := Numeric.ofInt64 (wrap64 (-directionScale.R)) }
    ((List.range 6).foldl
      (fun s i => spiralRingSide (directionAt T ((i + 2) % 6)) radius.toNat s) (hex, [])).2

/-- Spiral returns all hexes in a spiral pattern up to the given radius: the loop
`for r := 1; r <= radius; r++` appends ring `r`. -/
def Spiral [Numeric T] (h : Hex T) (radius : Int) : List (Hex T) :=
  (List.range radius.toNat).foldl
    (fun results (k : Nat) => results ++ h.SpiralRing ((k : Int) + 1)) [h]

end Hex

/-- The function `math.Round`: the nearest integer, rounding half away from zero. -/
def mathRound {K : Type} [LinearOrderedField K] [FloorRing K] (x : K) : K :=
  if 0 ≤ x then ((⌊x + 1 / 2⌋ : Int) : K) else ((⌈x - 1 / 2⌉ : Int) : K)

/-- Round returns the hex with rounded components (at the kind `float64`, where the
conversions `float64(·)` and `T(·)` are the identity). -/
def Hex.Round {K : Type} [LinearOrderedField K] [FloorRing K] (h : Hex K) : Hex K :=
  { Q := mathRound h.Q, R := mathRound h.R }

/-- The hex-grid step distance in the specification's words: `(|Δq| + |Δr| + |Δs|) / 2`
with `Δq = a.Q - b.Q`, `Δr = a.R - b.R` and `Δs = (-a.Q - a.R) - (-b.Q - b.R)`. -/
def specDistance (K : Type) [LinearOrderedField K] (a b : Hex Int) : K :=
  ((|a.Q - b.Q| + |a.R - b.R| + |(-a.Q - a.R) - (-b.Q - b.R)| : Int) : K) / 2

/-! ## vector2d.go -/

/-- Vector2D is a generic implementation of a 2D vector. -/
structure Vector2D (T : Type) where
  X : T
  Y : T
deriving DecidableEq

/-- NewVector2D creates a new Vector2D. -/
def NewVector2D {T : Type} (x y : T) : Vector2D T := { X := x, Y := y }

/-! ## hex_grid.go -/

/-- HexOrientation defines whether hexagons are flat-topped or pointy-topped. -/
structure HexOrientation (K : Type) where
  F0 : K
  F1 : K
  F2 : K
  F3 : K
  B0 : K
  B1 : K
  B2 : K
  B3 : K
  StartAngle : K

/-- HexLayout represents the orientation and size of hexagons. -/
structure HexLayout (K : Type) where
  Orientation : HexOrientation K
  Size : Vector2D K
  Origin : Vector2D K
  Zoom : K

/-- The orientation `LayoutPointy`; `sqrt` is the function `math.Sqrt`. -/
def LayoutPointy {K : Type} [LinearOrderedField K] (sqrt : K → K) : HexOrientation K :=
  { F0 := sqrt 3, F1 := sqrt 3 / 2, F2 := 0, F3 := 3 / 2,
    B0 := sqrt 3 / 3, B1 := -1 / 3, B2 := 0, B3 := 2 / 3,
    StartAngle := 1 / 2 }

/-- The orientation `LayoutFlat`; `sqrt` is the function `math.Sqrt`. -/
def LayoutFlat {K : Type} [LinearOrderedField K] (sqrt : K → K) : HexOrientation K :=
  { F0 := 3 / 2, F1 := 0, F2 := sqrt 3 / 2, F3 := sqrt 3,
    B0 := 2 / 3, B1 := 0, B2 := -1 / 3, B3 := sqrt 3 / 3,
    StartAngle := 0 }

/-- NewHexLayout creates a new layout with specified parameters. -/
def NewHexLayout {K : Type} (orientation : HexOrientation K) (size origin : Vector2D K)
    (zoom : K) : HexLayout K :=
  { Orientation := orientation, Size := size, Origin := origin, Zoom := zoom }

namespace HexLayout

variable {K : Type} [LinearOrderedField K]

/-- HexToVector2D converts hex coordinates to screen coordinates. -/
def HexToVector2D (layout : HexLayout K) (h : Hex K) : Vector2D K :=
  let o := layout.Orientation
  let size : Vector2D K :=
    { X := layout.Size.X * layout.Zoom, Y := layout.Size.Y * layout.Zoom }
  let x := (o.F0 * h.Q + o.F1 * h.R) * size.X
  let y := (o.F2 * h.Q + o.F3 * h.R) * size.Y
  { X := x + layout.Origin.X, Y := y + layout.Origin.Y }

/-- Vector2DToHex converts screen coordinates to hex coordinates. -/
def Vector2DToHex (layout : HexLayout K) (p : Vector2D K) : Hex K :=
  let o := layout.Orientation
  let size : Vector2D K :=
    { X := layout.Size.X * layout.Zoom, Y := layout.Size.Y * layout.Zoom }
  let pt : Vector2D K :=
    { X := (p.X - layout.Origin.X) / size.X, Y := (p.Y - layout.Origin.Y) / size.Y }
  let q := o.B0 * pt.X + o.B1 * pt.Y
  let r := o.B2 * pt.X + o.B3 * pt.Y
  { Q := q, R := r }

/-- HexCorners returns the corners of a hexagon in world coordinates; `cos`, `sin` and
`pi` are `math.Cos`, `math.Sin` and `math.Pi`. -/
def HexCorners (cos sin : K → K) (pi : K) (layout : HexLayout K) (h : Hex K) :
    List (Vector2D K) :=
  let center := layout.HexToVector2D h
  let size : Vector2D K :=
    { X := layout.Size.X * layout.Zoom, Y := layout.Size.Y * layout.Zoom }
  (List.range 6).map fun (i : Nat) =>
    let angle := 2 * pi * (((i : Int) : K) + layout.Orientation.StartAngle) / 6
    { X := center.X + size.X * cos angle, Y := center.Y + size.Y * sin angle }

end HexLayout

/-- Camera: the values that the three methods of the interface return during one call. -/
structure Camera (K : Type) where
  GetPosition : Vector2D K
  GetZoom : K
  GetSize : Vector2D K

/-- HexGrid represents the entire hexagonal grid system with camera integration. -/
structure HexGrid (K : Type) where
  Layout : HexLayout K

/-- NewHexGrid creates a new hex grid with the given base configuration. -/
def NewHexGrid {K : Type} [LinearOrderedField K] (orientation : HexOrientation K)
    (hexSize : Vector2D K) : HexGrid K :=
  { Layout := NewHexLayout orientation hexSize (NewVector2D 0 0) 1 }

/-- The values of the counter of a loop `for q := lo; q <= hi; q++`, in order. -/
def intRange (lo hi : Int) : List Int :=
  (List.range (hi + 1 - lo).toNat).map fun (i : Nat) => lo + (i : Int)

/-! The methods with receiver `*HexGrid` return their result together with the grid as
they leave it. The loop bounds of `GetVisibleHexes` are values of the bounded type `int`
(64 bits): the conversion from `float64` is `float64ToIntBounded` and the padding by one
wraps around. -/

namespace HexGrid

variable {K : Type} [LinearOrderedField K]

/-- WorldToScreen converts world coordinates to screen coordinates using camera data. -/
def WorldToScreen (grid : HexGrid K) (worldPos : Vector2D K) (camera : Camera K) :
    Vector2D K × HexGrid K :=
  let cameraPos := camera.GetPosition
  let cameraZoom := camera.GetZoom
  let cameraSize := camera.GetSize
  let screenX := (worldPos.X - cameraPos.X) * cameraZoom + cameraSize.X / 2
  let screenY := (worldPos.Y - cameraPos.Y) * cameraZoom + cameraSize.Y / 2
  (NewVector2D screenX screenY, grid)

/-- ScreenToWorld converts screen coordinates to world coordinates using camera data. -/
def ScreenToWorld (grid : HexGrid K) (screenPos : Vector2D K) (camera : Camera K) :
    Vector2D K × HexGrid K :=
  let cameraPos := camera.GetPosition
  let cameraZoom := camera.GetZoom
  let cameraSize := camera.GetSize
  let worldX := (screenPos.X - cameraSize.X / 2) / cameraZoom + cameraPos.X
  let worldY := (screenPos.Y - cameraSize.Y / 2) / cameraZoom + cameraPos.Y
  (NewVector2D worldX worldY, grid)

/-- HexToScreen converts hex coordinates to screen coordinates considering camera. -/
def HexToScreen (grid : HexGrid K) (hex : Hex K) (camera : Camera K) :
    Vector2D K × HexGrid K :=
  let worldPos := grid.Layout.HexToVector2D hex
  grid.WorldToScreen worldPos camera

/-- ScreenToHex converts screen coordinates to hex coordinates considering camera; it
updates the layout zoom with the camera zoom. -/
def ScreenToHex [FloorRing K] (grid : HexGrid K) (screenPos : Vector2D K)
    (camera : Camera K) : Hex K × HexGrid K :=
  let toWorld := grid.ScreenToWorld screenPos camera
  let worldPos := toWorld.1
  let grid1 : HexGrid K :=
    { toWorld.2 with Layout := { toWorld.2.Layout with Zoom := camera.GetZoom } }
  let fractionalHex := grid1.Layout.Vector2DToHex worldPos
  (fractionalHex.Round, grid1)

/-- GetVisibleHexes returns all hexes that are currently visible in the camera view.
`outOfRange` is what the platform gives for `int(x)` when `x` is out of range. -/
def GetVisibleHexes [FloorRing K] (outOfRange : K → Int) (grid : HexGrid K)
    (camera : Camera K) : List (Hex K) × HexGrid K :=
  let cameraSize := camera.GetSize
  let toTopLeft := grid.ScreenToWorld (NewVector2D 0 0) camera
  let topLeft := toTopLeft.1
  let toBottomRight := toTopLeft.2.ScreenToWorld (NewVector2D cameraSize.X cameraSize.Y) camera
  let bottomRight := toBottomRight.1
  let grid1 := toBottomRight.2
  let startHex := (grid1.Layout.Vector2DToHex topLeft).Round
  let endHex := (grid1.Layout.Vector2DToHex bottomRight).Round
  let minQ := wrap64 (float64ToIntBounded outOfRange (min startHex.Q endHex.Q) - 1)
  let maxQ := wrap64 (float64ToIntBounded outOfRange (max startHex.Q endHex.Q) + 1)
  let minR := wrap64 (float64ToIntBounded outOfRange (min startHex.R endHex.R) - 1)
  let maxR := wrap64 (float64ToIntBounded outOfRange (max startHex.R endHex.R) + 1)
  let visibleHexes := (intRange minQ maxQ).foldl
    (fun visibleHexes (q : Int) => (intRange minR maxR).foldl
      (fun visibleHexes (r : Int) =>
        let hex : Hex K := Hex.NewHex (q : K) (r : K)
        let worldPos := grid1.Layout.HexToVector2D hex
        if worldPos.X ≥ topLeft.X ∧ worldPos.X ≤ bottomRight.X ∧
            worldPos.Y ≥ topLeft.Y ∧ worldPos.Y ≤ bottomRight.Y then
          visibleHexes ++ [hex]
        else visibleHexes)
      visibleHexes)
    []
  (visibleHexes, grid1)

/-- HexCornerScreen returns the corners of a hexagon in screen coordinates: the loop
over `corners` converts each corner in turn. -/
def HexCornerScreen (cos sin : K → K) (pi : K) (grid : HexGrid K) (hex : Hex K)
    (camera : Camera K) : List (Vector2D K) × HexGrid K :=
  let corners := grid.Layout.HexCorners cos sin pi hex
  corners.foldl
    (fun (s : List (Vector2D K) × HexGrid K) corner =>
      let toScreen := s.2.WorldToScreen corner camera
      (s.1 ++ [toScreen.1], toScreen.2))
    ([], grid)

/-- HexImageToScreen calculates the screen position and scale factor for an image in a
hex cell. -/
def HexImageToScreen (grid : HexGrid K) (hex : Hex K) (imageDefaultSize : Vector2D K)
    (camera : Camera K) : (Vector2D K × Vector2D K) × HexGrid K :=
  let toScreen := grid.HexToScreen hex camera
  let centerPosition := toScreen.1
  let grid1 := toScreen.2
  let hexSize : Vector2D K :=
    { X := grid1.Layout.Size.X * grid1.Layout.Zoom * camera.GetZoom,
      Y := grid1.Layout.Size.Y * grid1.Layout.Zoom * camera.GetZoom }
  let scaleX := hexSize.X / imageDefaultSize.X
  let scaleY := hexSize.Y / imageDefaultSize.Y
  let scaleFactor := min scaleX scaleY
  ((centerPosition, { X := scaleFactor, Y := scaleFactor }), grid1)

end HexGrid

/-! ## Proof devices -/

/-- The hexes `hex + 1 * d, ..., hex + n * d` in order (a proof device: the content of
one side of a ring walk). -/
def sideList (hex d : Hex Int) (n : Nat) : List (Hex Int) :=
  (List.range n).map fun j : Nat =>
    { Q := hex.Q + ((j : Int) + 1) * d.Q, R := hex.R + ((j : Int) + 1) * d.R }

/-- The world position of the top left corner of the view, as `GetVisibleHexes`
computes it (a proof device naming an intermediate value). -/
def HexGrid.viewTopLeft {K : Type} [LinearOrderedField K] (grid : HexGrid K)
    (camera : Camera K) : Vector2D K :=
  (grid.ScreenToWorld (NewVector2D 0 0) camera).1

/-- The world position of the bottom right corner of the view, as `GetVisibleHexes`
computes it (a proof device naming an intermediate value). -/
def HexGrid.viewBottomRight {K : Type} [LinearOrderedField K] (grid : HexGrid K)
    (camera : Camera K) : Vector2D K :=
  (grid.ScreenToWorld (NewVector2D camera.GetSize.X camera.GetSize.Y) camera).1

/-- The value `startHex` of `GetVisibleHexes` (a proof device). -/
def HexGrid.viewStartHex {K : Type} [LinearOrderedField K] [FloorRing K] (grid : HexGrid K)
    (camera : Camera K) : Hex K :=
  (grid.Layout.Vector2DToHex (grid.viewTopLeft camera)).Round

/-- The value `endHex` of `GetVisibleHexes` (a proof device). -/
def HexGrid.viewEndHex {K : Type} [LinearOrderedField K] [FloorRing K] (grid : HexGrid K)
    (camera : Camera K) : Hex K :=
  (grid.Layout.Vector2DToHex (grid.viewBottomRight camera)).Round

/-- The `int64` hex with the coordinates `q` and `r` wrapped into the range (a proof
device). -/
def wrapHex (q r : Int) : Hex Int := { Q := wrap64 q, R := wrap64 r }

/-- The hexes `(q, r) + 0 * d, ..., (q, r) + (n - 1) * d`, wrapped (a proof device: the
content of one side of the walk of `Circle`). -/
def wrapCircleSide (q r : Int) (d : Hex Int) (n : Nat) : List (Hex Int) :=
  (List.range n).map fun j : Nat => wrapHex (q + (j : Int) * d.Q) (r + (j : Int) * d.R)

/-- The hexes `(q, r) + 1 * d, ..., (q, r) + n * d`, wrapped (a proof device: the
content of one side of the walk of `SpiralRing`). -/
def wrapRingSide (q r : Int) (d : Hex Int) (n : Nat) : List (Hex Int) :=
  (List.range n).map fun j : Nat =>
    wrapHex (q + ((j : Int) + 1) * d.Q) (r + ((j : Int) + 1) * d.R)

/-! ## Lengths of the enumerations -/

section Lengths

variable {T : Type} [Numeric T]

theorem Hex.circleSide_length (d : Hex T) (n : Nat) (s : Hex T × List (Hex T)) :
    (Hex.circleSide d n s).2.length = s.2.length + n := by
  induction n generalizing s with
  | zero => simp [Hex.circleSide]
  | succ n ih =>
    obtain ⟨hex, results⟩ := s
    simp only [Hex.circleSide, ih, List.length_append, List.length_singleton]
    omega

theorem Hex.spiralRingSide_length (d : Hex T) (n : Nat) (s : Hex T × List (Hex T)) :
    (Hex.spiralRingSide d n s).2.length = s.2.length + n := by
  induction n generalizing s with
  | zero => simp [Hex.spiralRingSide]
  | succ n ih =>
    obtain ⟨hex, results⟩ := s
    simp only [Hex.spiralRingSide, ih, List.length_append, List.length_singleton]
    omega

/-- Running a loop body that appends `n` elements once per index of `l` appends
`l.length * n` elements. -/
theorem foldl_sides_length {α : Type} (side : Nat → α × List α → α × List α)
    (n : Nat) (hside : ∀ i s, (side i s).2.length = s.2.length + n)
    (l : List Nat) (s : α × List α) :
    (l.foldl (fun s i => side i s) s).2.length = s.2.length + l.length * n := by
  induction l generalizing s with
  | nil => simp
  | cons i l ih =>
    simp only [List.foldl_cons, ih, hside, List.length_cons]
    ring

theorem Hex.Circle_length_nat (h : Hex T) (radius : Int) (hr : 0 ≤ radius) :
    (h.Circle radius).length = 6 * radius.toNat := by
  unfold Hex.Circle
  rw [if_neg (by omega)]
  have := foldl_sides_length (fun i s => Hex.circleSide (directionAt T i) radius.toNat s)
    radius.toNat (fun i s => Hex.circleSide_length _ _ s) (List.range 6)
  simp only [this, List.length_nil, List.length_range]
  omega

theorem Hex.SpiralRing_length_nat (h : Hex T) (radius : Int) (hr : 0 < radius) :
    (h.SpiralRing radius).length = 6 * radius.toNat := by
  unfold Hex.SpiralRing
  rw [if_neg (by omega), if_neg (by omega)]
  have := foldl_sides_length
    (fun i s => Hex.spiralRingSide (directionAt T ((i + 2) % 6)) radius.toNat s)
    radius.toNat (fun i s => Hex.spiralRingSide_length _ _ s) (List.range 6)
  simp only [this, List.length_nil, List.length_range]
  omega

/-- A loop that appends `f k` for each `k` of `l` in turn appends their concatenation. -/
theorem foldl_append_eq_flatten {α β : Type} (f : β → List α) (l : List β) (init : List α) :
    l.foldl (fun results k => results ++ f k) init = init ++ (l.map f).flatten := by
  induction l generalizing init with
  | nil => simp
  | cons k l ih => simp [ih]

/-- The rings `1, ..., n` have `3 * n * (n + 1)` elements altogether. -/
theorem rings_length (h : Hex T) (n : Nat) :
    ((List.range n).map fun k : Nat => h.SpiralRing ((k : Int) + 1)).flatten.length
      = 3 * n * (n + 1) := by
  induction n with
  | zero => simp
  | succ n ih =>
    rw [List.range_succ, List.map_append, List.flatten_append, List.length_append, ih]
    simp only [List.map_cons, List.map_nil, List.flatten_cons, List.flatten_nil,
      List.append_nil]
    rw [Hex.SpiralRing_length_nat h _ (by omega)]
    have : ((n : Int) + 1).toNat = n + 1 := by omega
    rw [this]
    ring

end Lengths

/-! ## The ring walked by `SpiralRing` on `int64` hexes -/

section Ring

theorem wrap64_eq_self {x : Int} (hx : InInt64 x) : wrap64 x = x := by
  unfold InInt64 at hx
  unfold wrap64
  omega

theorem Hex.Add_int (a b : Hex Int) (hq : InInt64 (a.Q + b.Q)) (hr : InInt64 (a.R + b.R)) :
    a.Add b = { Q := a.Q + b.Q, R := a.R + b.R } := by
  simp only [Hex.Add, Numeric.add]
  rw [wrap64_eq_self hq, wrap64_eq_self hr]

/-- One side of `SpiralRing` on `int64` hexes, as long as no step leaves the `int64`
range: the side from `hex` along `d` lists `hex + 1 * d, ..., hex + n * d` and ends
on the last of them. -/
theorem Hex.spiralRingSide_int (d : Hex Int) (n : Nat) (hex : Hex Int) (res : List (Hex Int))
    (hin : ∀ j : Nat, 1 ≤ j → j ≤ n →
      InInt64 (hex.Q + j * d.Q) ∧ InInt64 (hex.R + j * d.R)) :
    Hex.spiralRingSide d n (hex, res) =
      ({ Q := hex.Q + n * d.Q, R := hex.R + n * d.R },
        res ++ (List.range n).map fun j : Nat =>
          ({ Q := hex.Q + ((j : Int) + 1) * d.Q, R := hex.R + ((j : Int) + 1) * d.R } : Hex Int)) := by
  induction n generalizing hex res with
  | zero => simp [Hex.spiralRingSide]
  | succ n ih =>
    have h1 := hin 1 le_rfl (by omega)
    simp only [Nat.cast_one, one_mul] at h1
    have hadd : hex.Add d = { Q := hex.Q + d.Q, R := hex.R + d.R } :=
      Hex.Add_int hex d h1.1 h1.2
    simp only [Hex.spiralRingSide, hadd]
    rw [ih]
    · simp only [List.range_succ_eq_map, List.map_cons, List.map_map, List.append_assoc,
        List.singleton_append, Prod.mk.injEq, Hex.mk.injEq, Nat.cast_add, Nat.cast_one]
      refine ⟨⟨by ring, by ring⟩, ?_⟩
      congr 1
      simp only [Nat.cast_zero, zero_add, one_mul, List.cons.injEq, true_and]
      apply List.map_congr_left
      intro j _
      simp only [Function.comp, Nat.succ_eq_add_one, Nat.cast_add, Nat.cast_one, Hex.mk.injEq]
      exact ⟨by ring, by ring⟩
    · intro j hj1 hjn
      have := hin (j + 1) (by omega) (by omega)
      simp only [Nat.cast_add, Nat.cast_one] at this
      refine ⟨?_, ?_⟩
      · have e : hex.Q + d.Q + (j : Int) * d.Q = hex.Q + ((j : Int) + 1) * d.Q := by ring
        rw [e]; exact this.1
      · have e : hex.R + d.R + (j : Int) * d.R = hex.R + ((j : Int) + 1) * d.R := by ring
        rw [e]; exact this.2

theorem Hex.spiralRingSide_int_to (d : Hex Int) (n : Nat) (hex : Hex Int)
    (res : List (Hex Int)) (e : Hex Int)
    (hin : ∀ j : Nat, 1 ≤ j → j ≤ n →
      InInt64 (hex.Q + j * d.Q) ∧ InInt64 (hex.R + j * d.R))
    (he : e.Q = hex.Q + n * d.Q ∧ e.R = hex.R + n * d.R) :
    Hex.spiralRingSide d n (hex, res) = (e, res ++ sideList hex d n) := by
  rw [Hex.spiralRingSide_int d n hex res hin]
  obtain ⟨eq, er⟩ := e
  simp only at he
  simp only [sideList, he.1, he.2]

/-- The walk of `SpiralRing` on an `int64` hex whose ring of radius `n` stays inside
the `int64` range: six sides of `n` hexes, from corner to corner. -/
theorem Hex.SpiralRing_int (h : Hex Int) (n : Nat) (hn : 0 < n)
    (hQ : InInt64 (h.Q - n) ∧ InInt64 (h.Q + n))
    (hR : InInt64 (h.R - n) ∧ InInt64 (h.R + n)) :
    h.SpiralRing (n : Int) =
      sideList { Q := h.Q + n, R := h.R } { Q := -1, R := 1 } n ++
      sideList { Q := h.Q, R := h.R + n } { Q := -1, R := 0 } n ++
      sideList { Q := h.Q - n, R := h.R + n } { Q := 0, R := -1 } n ++
      sideList { Q := h.Q - n, R := h.R } { Q := 1, R := -1 } n ++
      sideList { Q := h.Q, R := h.R - n } { Q := 1, R := 0 } n ++
      sideList { Q := h.Q + n, R := h.R - n } { Q := 0, R := 1 } n := by
  unfold InInt64 at hQ hR
  have hnr : InInt64 (n : Int) := by unfold InInt64; omega
  have e1 : ((directions.getD 0 { Q := 0, R := 0 }).Multiply (n : Int)).Q = n := by
    simp only [directions, List.getD_cons_zero, Hex.Multiply, Numeric.mul, one_mul]
    exact wrap64_eq_self hnr
  have e2 : ((directions.getD 0 { Q := 0, R := 0 }).Multiply (n : Int)).R = 0 := by
    simp only [directions, List.getD_cons_zero, Hex.Multiply, Numeric.mul, zero_mul]
    rfl
  have e3 : wrap64 (-0) = 0 := rfl
  have hstart : h.Add { Q := (n : Int), R := 0 } = { Q := h.Q + n, R := h.R } := by
    rw [Hex.Add_int _ _ (by unfold InInt64; simp only; omega)
      (by unfold InInt64; simp only; omega)]
    simp
  have h6 : List.range 6 = [0, 1, 2, 3, 4, 5] := rfl
  have d0 : directionAt Int 0 = { Q := 1, R := 0 } := rfl
  have d1 : directionAt Int 1 = { Q := 0, R := 1 } := rfl
  have d2 : directionAt Int 2 = { Q := -1, R := 1 } := rfl
  have d3 : directionAt Int 3 = { Q := -1, R := 0 } := rfl
  have d4 : directionAt Int 4 = { Q := 0, R := -1 } := rfl
  have d5 : directionAt Int 5 = { Q := 1, R := -1 } := rfl
  unfold Hex.SpiralRing
  rw [if_neg (by omega), if_neg (by omega)]
  simp only [e1, e2, e3, Numeric.ofInt64, hstart, h6, List.foldl_cons, List.foldl_nil,
    Int.toNat_ofNat]
  norm_num only [d0, d1, d2, d3, d4, d5]
  rw [Hex.spiralRingSide_int_to { Q := -1, R := 1 } n _ _ { Q := h.Q, R := h.R + n }
    (by intro j _ _; unfold InInt64; simp only; omega) (by simp only; omega)]
  rw [Hex.spiralRingSide_int_to { Q := -1, R := 0 } n _ _ { Q := h.Q - n, R := h.R + n }
    (by intro j _ _; unfold InInt64; simp only; omega) (by simp only; omega)]
  rw [Hex.spiralRingSide_int_to { Q := 0, R := -1 } n _ _ { Q := h.Q - n, R := h.R }
    (by intro j _ _; unfold InInt64; simp only; omega) (by simp only; omega)]
  rw [Hex.spiralRingSide_int_to { Q := 1, R := -1 } n _ _ { Q := h.Q, R := h.R - n }
    (by intro j _ _; unfold InInt64; simp only; omega) (by simp only; omega)]
  rw [Hex.spiralRingSide_int_to { Q := 1, R := 0 } n _ _ { Q := h.Q + n, R := h.R - n }
    (by intro j _ _; unfold InInt64; simp only; omega) (by simp only; omega)]
  rw [Hex.spiralRingSide_int_to { Q := 0, R := 1 } n _ _ { Q := h.Q + n, R := h.R }
    (by intro j _ _; unfold InInt64; simp only; omega) (by simp only; omega)]
  simp only [List.nil_append, List.append_assoc]

theorem mem_sideList (hex d x : Hex Int) (n : Nat) :
    x ∈ sideList hex d n ↔
      ∃ j : Nat, j < n ∧ x.Q = hex.Q + ((j : Int) + 1) * d.Q ∧
        x.R = hex.R + ((j : Int) + 1) * d.R := by
  obtain ⟨xq, xr⟩ := x
  simp only [sideList, List.mem_map, List.mem_range, Hex.mk.injEq]
  constructor
  · rintro ⟨j, hj, h1, h2⟩
    exact ⟨j, hj, h1.symm, h2.symm⟩
  · rintro ⟨j, hj, h1, h2⟩
    exact ⟨j, hj, h1.symm, h2.symm⟩

theorem sideList_nodup (hex d : Hex Int) (n : Nat) (hd : d.Q ≠ 0 ∨ d.R ≠ 0) :
    (sideList hex d n).Nodup := by
  unfold sideList
  refine (List.nodup_range n).map_on ?_
  intro j _ k _ hjk
  simp only [Hex.mk.injEq, add_right_inj] at hjk
  rcases hd with hd | hd
  · have := mul_right_cancel₀ hd hjk.1
    omega
  · have := mul_right_cancel₀ hd hjk.2
    omega

/-- The cube-coordinate form of the hex distance, as a choice among the six sides of
the ring: for `r > 0`, `(|a| + |b| + |a + b|) / 2 = r` says on which side `(a, b)` lies. -/
theorem half_abs_sum_eq_iff (a b r : Int) (hr : 0 < r) :
    (|a| + |b| + |a + b|) / 2 = r ↔
      (a + b = r ∧ 0 ≤ a ∧ 1 ≤ b) ∨ (b = r ∧ -r ≤ a ∧ a ≤ -1) ∨
      (a = -r ∧ 0 ≤ b ∧ b ≤ r - 1) ∨ (a + b = -r ∧ a ≤ 0 ∧ b ≤ -1) ∨
      (b = -r ∧ 1 ≤ a ∧ a ≤ r) ∨ (a = r ∧ 1 - r ≤ b ∧ b ≤ 0) := by
  rcases abs_cases a with ⟨h1, h2⟩ | ⟨h1, h2⟩ <;>
  rcases abs_cases b with ⟨h3, h4⟩ | ⟨h3, h4⟩ <;>
  rcases abs_cases (a + b) with ⟨h5, h6⟩ | ⟨h5, h6⟩ <;>
  rw [h1, h3, h5] <;> omega

/-- Membership in the six sides of the ring of radius `n > 0` around `h` is being at
hex distance `n` from `h`. -/
theorem mem_ring_sides_iff (h x : Hex Int) (n : Nat) (hn : 0 < n) :
    x ∈ sideList { Q := h.Q + n, R := h.R } { Q := -1, R := 1 } n ++
        sideList { Q := h.Q, R := h.R + n } { Q := -1, R := 0 } n ++
        sideList { Q := h.Q - n, R := h.R + n } { Q := 0, R := -1 } n ++
        sideList { Q := h.Q - n, R := h.R } { Q := 1, R := -1 } n ++
        sideList { Q := h.Q, R := h.R - n } { Q := 1, R := 0 } n ++
        sideList { Q := h.Q + n, R := h.R - n } { Q := 0, R := 1 } n ↔
      (|x.Q - h.Q| + |x.R - h.R| + |(x.Q - h.Q) + (x.R - h.R)|) / 2 = n := by
  rw [half_abs_sum_eq_iff _ _ _ (by omega)]
  simp only [List.mem_append, mem_sideList]
  constructor
  · rintro (((((⟨j, hj, h1, h2⟩ | ⟨j, hj, h1, h2⟩) | ⟨j, hj, h1, h2⟩) | ⟨j, hj, h1, h2⟩) |
      ⟨j, hj, h1, h2⟩) | ⟨j, hj, h1, h2⟩) <;> omega
  · rintro (⟨h1, h2, h3⟩ | ⟨h1, h2, h3⟩ | ⟨h1, h2, h3⟩ | ⟨h1, h2, h3⟩ | ⟨h1, h2, h3⟩ |
      ⟨h1, h2, h3⟩)
    · exact Or.inl (Or.inl (Or.inl (Or.inl (Or.inl
        ⟨(x.R - h.R - 1).toNat, by omega, by omega, by omega⟩))))
    · exact Or.inl (Or.inl (Or.inl (Or.inl (Or.inr
        ⟨(h.Q - x.Q - 1).toNat, by omega, by omega, by omega⟩))))
    · exact Or.inl (Or.inl (Or.inl (Or.inr
        ⟨(h.R + n - x.R - 1).toNat, by omega, by omega, by omega⟩)))
    · exact Or.inl (Or.inl (Or.inr
        ⟨(h.R - x.R - 1).toNat, by omega, by omega, by omega⟩))
    · exact Or.inl (Or.inr
        ⟨(x.Q - h.Q - 1).toNat, by omega, by omega, by omega⟩)
    · exact Or.inr
        ⟨(x.R - h.R + n - 1).toNat, by omega, by omega, by omega⟩

theorem ring_sides_nodup (h : Hex Int) (n : Nat) :
    (sideList { Q := h.Q + n, R := h.R } { Q := -1, R := 1 } n ++
        sideList { Q := h.Q, R := h.R + n } { Q := -1, R := 0 } n ++
        sideList { Q := h.Q - n, R := h.R + n } { Q := 0, R := -1 } n ++
        sideList { Q := h.Q - n, R := h.R } { Q := 1, R := -1 } n ++
        sideList { Q := h.Q, R := h.R - n } { Q := 1, R := 0 } n ++
        sideList { Q := h.Q + n, R := h.R - n } { Q := 0, R := 1 } n).Nodup := by
  simp only [List.nodup_append, List.disjoint_left, List.mem_append, mem_sideList]
  refine ⟨⟨⟨⟨⟨?_, ?_, ?_⟩, ?_, ?_⟩, ?_, ?_⟩, ?_, ?_⟩, ?_, ?_⟩
  any_goals exact sideList_nodup _ _ _ (by decide)
  all_goals
    intro x hx hy
    obtain ⟨k, hk, h3, h4⟩ := hy
  · obtain ⟨j, hj, h1, h2⟩ := hx
    omega
  · rcases hx with ⟨j, hj, h1, h2⟩ | ⟨j, hj, h1, h2⟩ <;> omega
  · rcases hx with (⟨j, hj, h1, h2⟩ | ⟨j, hj, h1, h2⟩) | ⟨j, hj, h1, h2⟩ <;> omega
  · rcases hx with ((⟨j, hj, h1, h2⟩ | ⟨j, hj, h1, h2⟩) | ⟨j, hj, h1, h2⟩) |
      ⟨j, hj, h1, h2⟩ <;> omega
  · rcases hx with (((⟨j, hj, h1, h2⟩ | ⟨j, hj, h1, h2⟩) | ⟨j, hj, h1, h2⟩) |
      ⟨j, hj, h1, h2⟩) | ⟨j, hj, h1, h2⟩ <;> omega

end Ring

/-! ## Rounding and the layout matrices -/

section Layout

theorem mathRound_intCast {K : Type} [LinearOrderedField K] [FloorRing K] (z : Int) :
    mathRound (z : K) = (z : K) := by
  unfold mathRound
  split
  · have : ⌊(z : K) + 1 / 2⌋ = z := by
      rw [Int.floor_eq_iff]
      constructor <;> norm_num
    rw [this]
  · have : ⌈(z : K) - 1 / 2⌉ = z := by
      rw [Int.ceil_eq_iff]
      constructor <;> norm_num
    rw [this]

theorem sqrt_three_mul_self : Real.sqrt 3 * Real.sqrt 3 = 3 :=
  Real.mul_self_sqrt (by norm_num)

/-- The inverse matrix of `LayoutPointy` undoes its forward matrix. -/
theorem Vector2DToHex_HexToVector2D_pointy (size origin : Vector2D ℝ)
    (hx : size.X ≠ 0) (hy : size.Y ≠ 0) (h : Hex ℝ) :
    (NewHexLayout (LayoutPointy Real.sqrt) size origin 1).Vector2DToHex
      ((NewHexLayout (LayoutPointy Real.sqrt) size origin 1).HexToVector2D h) = h := by
  obtain ⟨q, r⟩ := h
  simp only [HexLayout.Vector2DToHex, HexLayout.HexToVector2D, NewHexLayout, LayoutPointy,
    Hex.mk.injEq]
  constructor
  · field_simp
    linear_combination 6 * (2 * q + r) * size.X * size.Y * sqrt_three_mul_self
  · field_simp
    ring

/-- The inverse matrix of `LayoutFlat` undoes its forward matrix. -/
theorem Vector2DToHex_HexToVector2D_flat (size origin : Vector2D ℝ)
    (hx : size.X ≠ 0) (hy : size.Y ≠ 0) (h : Hex ℝ) :
    (NewHexLayout (LayoutFlat Real.sqrt) size origin 1).Vector2DToHex
      ((NewHexLayout (LayoutFlat Real.sqrt) size origin 1).HexToVector2D h) = h := by
  obtain ⟨q, r⟩ := h
  simp only [HexLayout.Vector2DToHex, HexLayout.HexToVector2D, NewHexLayout, LayoutFlat,
    Hex.mk.injEq]
  constructor
  · field_simp
    ring
  · field_simp
    linear_combination 6 * (q + 2 * r) * size.X * size.Y * sqrt_three_mul_self

theorem sqrt_three_bounds : (1.731 : ℝ) < Real.sqrt 3 ∧ Real.sqrt 3 < 1.733 := by
  constructor
  · rw [Real.lt_sqrt (by norm_num)]
    norm_num
  · rw [Real.sqrt_lt (by norm_num) (by norm_num)]
    norm_num

end Layout

/-! ## Conversions and `int64` arithmetic -/

section Arith

theorem float64ToInt_intCast {K : Type} [LinearOrderedField K] [FloorRing K] (z : Int) :
    float64ToInt (z : K) = z := by
  unfold float64ToInt
  split <;> simp

/-- Truncation toward zero of a value strictly between two consecutive integers on the
non-negative side. -/
theorem float64ToInt_of_nonneg {K : Type} [LinearOrderedField K] [FloorRing K] (x : K)
    (z : Int) (h0 : 0 ≤ x) (h1 : (z : K) ≤ x) (h2 : x < z + 1) : float64ToInt x = z := by
  unfold float64ToInt
  rw [if_pos h0, Int.floor_eq_iff]
  exact ⟨h1, h2⟩

theorem float64ToInt_of_neg {K : Type} [LinearOrderedField K] [FloorRing K] (x : K)
    (z : Int) (h0 : x < 0) (h1 : (z : K) - 1 < x) (h2 : x ≤ z) : float64ToInt x = z := by
  unfold float64ToInt
  rw [if_neg (not_le.mpr h0), Int.ceil_eq_iff]
  exact ⟨h1, h2⟩

theorem wrap64_sub_wrap64_add (a b : Int) (ha : InInt64 a) :
    wrap64 (wrap64 (a + b) - b) = a := by
  unfold InInt64 at ha
  unfold wrap64
  omega

/-- The `int64` quotient: the truncated quotient wrapped into the range. -/
theorem int64_div_of_ne_zero (a k : Int) (hk : k ≠ 0) :
    (Numeric.div a k : Option Int) = some (wrap64 (Int.tdiv a k)) := by
  simp only [Numeric.div, if_neg hk]

theorem int64_div_zero (a : Int) : (Numeric.div a 0 : Option Int) = none := by
  simp only [Numeric.div, if_true]

/-- The truncated quotient of two `int64` values is an `int64` value, except for
`-2^63 / -1`. -/
theorem tdiv_InInt64 (a k : Int) (ha : InInt64 a) (hk : k ≠ 0)
    (hne : ¬ (a = -(2 ^ 63) ∧ k = -1)) : InInt64 (Int.tdiv a k) := by
  unfold InInt64 at *
  have habs : (Int.tdiv a k).natAbs ≤ a.natAbs := by
    rw [Int.natAbs_tdiv]
    exact Nat.div_le_self _ _
  by_cases hk1 : k = -1
  · subst hk1
    have hna : a ≠ -(2 ^ 63) := fun h => hne ⟨h, rfl⟩
    have : Int.tdiv a (-1) = -a := by
      rw [Int.tdiv_neg, Int.tdiv_one]
    rw [this]
    omega
  · by_cases hk2 : k = 1
    · subst hk2
      rw [Int.tdiv_one]
      exact ha
    · have hk3 : 2 ≤ k.natAbs := by omega
      have : a.natAbs / k.natAbs ≤ a.natAbs / 2 :=
        Nat.div_le_div_left hk3 (by norm_num)
      rw [Int.natAbs_tdiv] at habs
      have h4 : (Int.tdiv a k).natAbs = a.natAbs / k.natAbs := Int.natAbs_tdiv a k
      omega

end Arith

/-! ## The grid and its camera -/

section Grid

variable {K : Type} [LinearOrderedField K]

theorem mem_intRange (lo hi q : Int) : q ∈ intRange lo hi ↔ lo ≤ q ∧ q ≤ hi := by
  simp only [intRange, List.mem_map, List.mem_range]
  constructor
  · rintro ⟨i, hi, rfl⟩
    omega
  · intro h
    exact ⟨(q - lo).toNat, by omega, by omega⟩

/-- A loop that appends `f r` for the indices `r` that pass the test `P` appends the
images of the indices that pass. -/
theorem foldl_if_append {α β : Type} (P : β → Prop) [DecidablePred P] (f : β → α)
    (l : List β) (init : List α) :
    l.foldl (fun vis r => if P r then vis ++ [f r] else vis) init
      = init ++ (l.filter fun r => decide (P r)).map f := by
  induction l generalizing init with
  | nil => simp
  | cons r l ih =>
    simp only [List.foldl_cons, ih, List.filter_cons]
    by_cases hP : P r
    · simp [hP]
    · simp [hP]

theorem HexGrid.ScreenToWorld_snd (grid : HexGrid K) (p : Vector2D K) (camera : Camera K) :
    (grid.ScreenToWorld p camera).2 = grid := rfl

theorem HexGrid.WorldToScreen_snd (grid : HexGrid K) (p : Vector2D K) (camera : Camera K) :
    (grid.WorldToScreen p camera).2 = grid := rfl

/-- The hexes that `GetVisibleHexes` returns: the integer hexes of the padded box around
`startHex` and `endHex` whose center lies in the view rectangle. -/
theorem HexGrid.mem_GetVisibleHexes [FloorRing K] (outOfRange : K → Int) (grid : HexGrid K)
    (camera : Camera K) (x : Hex K) :
    x ∈ (grid.GetVisibleHexes outOfRange camera).1 ↔
      ∃ q r : Int,
        (wrap64 (float64ToIntBounded outOfRange
              (min (grid.viewStartHex camera).Q (grid.viewEndHex camera).Q) - 1) ≤ q ∧
          q ≤ wrap64 (float64ToIntBounded outOfRange
              (max (grid.viewStartHex camera).Q (grid.viewEndHex camera).Q) + 1)) ∧
        (wrap64 (float64ToIntBounded outOfRange
              (min (grid.viewStartHex camera).R (grid.viewEndHex camera).R) - 1) ≤ r ∧
          r ≤ wrap64 (float64ToIntBounded outOfRange
              (max (grid.viewStartHex camera).R (grid.viewEndHex camera).R) + 1)) ∧
        ((grid.viewTopLeft camera).X ≤ (grid.Layout.HexToVector2D { Q := q, R := r }).X ∧
          (grid.Layout.HexToVector2D { Q := q, R := r }).X ≤ (grid.viewBottomRight camera).X ∧
          (grid.viewTopLeft camera).Y ≤ (grid.Layout.HexToVector2D { Q := q, R := r }).Y ∧
          (grid.Layout.HexToVector2D { Q := q, R := r }).Y ≤ (grid.viewBottomRight camera).Y) ∧
        x = { Q := (q : K), R := (r : K) } := by
  unfold HexGrid.GetVisibleHexes
  simp only [HexGrid.ScreenToWorld_snd, ge_iff_le, Hex.NewHex]
  simp only [foldl_if_append, foldl_append_eq_flatten, List.nil_append, List.mem_flatten,
    List.mem_map, List.mem_filter, mem_intRange, decide_eq_true_eq, HexGrid.viewStartHex,
    HexGrid.viewEndHex, HexGrid.viewTopLeft, HexGrid.viewBottomRight]
  constructor
  · rintro ⟨l, ⟨q, hq, rfl⟩, hx⟩
    simp only [List.mem_map, List.mem_filter, mem_intRange, decide_eq_true_eq] at hx
    obtain ⟨r, ⟨hr, hin⟩, rfl⟩ := hx
    exact ⟨q, r, hq, hr, hin, rfl⟩
  · rintro ⟨q, r, hq, hr, hin, rfl⟩
    refine ⟨_, ⟨q, hq, rfl⟩, ?_⟩
    simp only [List.mem_map, List.mem_filter, mem_intRange, decide_eq_true_eq]
    exact ⟨r, ⟨hr, hin⟩, rfl⟩

theorem HexGrid.HexToScreen_snd (grid : HexGrid K) (hex : Hex K) (camera : Camera K) :
    (grid.HexToScreen hex camera).2 = grid := rfl

theorem HexGrid.GetVisibleHexes_snd [FloorRing K] (outOfRange : K → Int) (grid : HexGrid K)
    (camera : Camera K) : (grid.GetVisibleHexes outOfRange camera).2 = grid := rfl

theorem HexGrid.HexImageToScreen_snd (grid : HexGrid K) (hex : Hex K)
    (imageDefaultSize : Vector2D K) (camera : Camera K) :
    (grid.HexImageToScreen hex imageDefaultSize camera).2 = grid := rfl

/-- The loop of `HexCornerScreen` hands the grid on as it received it. -/
theorem HexGrid.cornerLoop_snd (camera : Camera K) (corners : List (Vector2D K))
    (s : List (Vector2D K) × HexGrid K) :
    (corners.foldl
      (fun (s : List (Vector2D K) × HexGrid K) corner =>
        let toScreen := s.2.WorldToScreen corner camera
        (s.1 ++ [toScreen.1], toScreen.2)) s).2 = s.2 := by
  induction corners generalizing s with
  | nil => rfl
  | cons c cs ih =>
    rw [List.foldl_cons, ih]
    rfl

theorem HexGrid.HexCornerScreen_snd (cos sin : K → K) (pi : K) (grid : HexGrid K)
    (hex : Hex K) (camera : Camera K) :
    (grid.HexCornerScreen cos sin pi hex camera).2 = grid := by
  unfold HexGrid.HexCornerScreen
  exact HexGrid.cornerLoop_snd camera _ _

theorem mathRound_nonneg [FloorRing K] (x : K) (hx : 0 ≤ x) : 0 ≤ mathRound x := by
  unfold mathRound
  rw [if_pos hx]
  have : (0 : Int) ≤ ⌊x + 1 / 2⌋ := Int.floor_nonneg.mpr (by linarith)
  exact_mod_cast this

theorem mathRound_nonpos [FloorRing K] (x : K) (hx : x ≤ 0) : mathRound x ≤ 0 := by
  unfold mathRound
  split
  · rename_i h0
    have hx0 : x = 0 := le_antisymm hx h0
    have : ⌊x + 1 / 2⌋ = 0 := by
      rw [Int.floor_eq_iff]
      constructor <;> norm_num [hx0]
    rw [this]
    simp
  · have : ⌈x - 1 / 2⌉ ≤ (0 : Int) := Int.ceil_le.mpr (by norm_num; linarith)
    exact_mod_cast this

/-- Rounding half away from zero: a value strictly within `1/2` of an integer rounds to
that integer. -/
theorem mathRound_eq_of_lt [FloorRing K] (x : K) (z : Int) (h1 : (z : K) - 1 / 2 < x)
    (h2 : x < z + 1 / 2) : mathRound x = z := by
  unfold mathRound
  split
  · have : ⌊x + 1 / 2⌋ = z := by
      rw [Int.floor_eq_iff]
      constructor <;> linarith
    rw [this]
  · have : ⌈x - 1 / 2⌉ = z := by
      rw [Int.ceil_eq_iff]
      constructor <;> linarith
    rw [this]

theorem float64ToInt_nonneg [FloorRing K] (x : K) (hx : 0 ≤ x) : 0 ≤ float64ToInt x := by
  unfold float64ToInt
  rw [if_pos hx]
  exact Int.floor_nonneg.mpr hx

theorem float64ToInt_nonpos [FloorRing K] (x : K) (hx : x ≤ 0) : float64ToInt x ≤ 0 := by
  unfold float64ToInt
  split
  · rename_i h0
    have hx0 : x = 0 := le_antisymm hx h0
    rw [hx0]
    simp
  · exact Int.ceil_le.mpr (by simpa using hx)

/-- The padded interval that `GetVisibleHexes` builds from two opposite numbers
contains `0`. -/
theorem padded_interval_contains_zero [FloorRing K] (a b : K) (hab : b = -a) :
    float64ToInt (min (mathRound a) (mathRound b)) - 1 ≤ 0 ∧
      0 ≤ float64ToInt (max (mathRound a) (mathRound b)) + 1 := by
  subst hab
  have hmin : min (mathRound a) (mathRound (-a)) ≤ 0 := by
    rcases le_total a 0 with ha | ha
    · exact le_trans (min_le_left _ _) (mathRound_nonpos a ha)
    · exact le_trans (min_le_right _ _) (mathRound_nonpos (-a) (by linarith))
  have hmax : 0 ≤ max (mathRound a) (mathRound (-a)) := by
    rcases le_total a 0 with ha | ha
    · exact le_trans (mathRound_nonneg (-a) (by linarith)) (le_max_right _ _)
    · exact le_trans (mathRound_nonneg a ha) (le_max_left _ _)
  have h1 := float64ToInt_nonpos _ hmin
  have h2 := float64ToInt_nonneg _ hmax
  constructor <;> omega

theorem float64ToIntBounded_of_InInt64 [FloorRing K] (outOfRange : K → Int) (x : K)
    (h : InInt64 (float64ToInt x)) : float64ToIntBounded outOfRange x = float64ToInt x := by
  unfold float64ToIntBounded
  rw [if_pos h]

theorem float64ToIntBounded_of_not_InInt64 [FloorRing K] (outOfRange : K → Int) (x : K)
    (h : ¬ InInt64 (float64ToInt x)) : float64ToIntBounded outOfRange x = outOfRange x := by
  unfold float64ToIntBounded
  rw [if_neg h]

/-- Rounding keeps a value within a symmetric integer bound. -/
theorem mathRound_mem_Icc [FloorRing K] (x : K) (B : Int) (h : |x| ≤ (B : K)) :
    -(B : K) ≤ mathRound x ∧ mathRound x ≤ (B : K) := by
  obtain ⟨h1, h2⟩ := abs_le.mp h
  unfold mathRound
  split
  · rename_i h0
    have hlo : (0 : Int) ≤ ⌊x + 1 / 2⌋ := Int.floor_nonneg.mpr (by linarith)
    have hhi : ⌊x + 1 / 2⌋ < B + 1 := by
      rw [Int.floor_lt]
      push_cast
      linarith
    have hB : (0 : K) ≤ (B : K) := le_trans h0 h2
    have hhi2 : ⌊x + 1 / 2⌋ ≤ B := by omega
    constructor
    · have : ((0 : Int) : K) ≤ ((⌊x + 1 / 2⌋ : Int) : K) := Int.cast_le.mpr hlo
      push_cast at this
      linarith
    · exact Int.cast_le.mpr hhi2
  · rename_i h0
    have hx : x < 0 := not_le.mp h0
    have hhi : ⌈x - 1 / 2⌉ ≤ (0 : Int) := Int.ceil_le.mpr (by push_cast; linarith)
    have hlo : -B - 1 < ⌈x - 1 / 2⌉ := by
      rw [Int.lt_ceil]
      push_cast
      linarith
    have hlo2 : -B ≤ ⌈x - 1 / 2⌉ := by omega
    have hB : (0 : K) ≤ (B : K) := by linarith
    constructor
    · have : ((-B : Int) : K) ≤ ((⌈x - 1 / 2⌉ : Int) : K) := Int.cast_le.mpr hlo2
      push_cast at this
      exact this
    · have : ((⌈x - 1 / 2⌉ : Int) : K) ≤ ((0 : Int) : K) := Int.cast_le.mpr hhi
      push_cast at this
      linarith

/-- Truncation keeps a value within a symmetric integer bound. -/
theorem float64ToInt_mem_Icc [FloorRing K] (y : K) (B : Int) (h1 : -(B : K) ≤ y)
    (h2 : y ≤ (B : K)) : -B ≤ float64ToInt y ∧ float64ToInt y ≤ B := by
  unfold float64ToInt
  split
  · constructor
    · rw [Int.le_floor]
      push_cast
      exact h1
    · have := Int.floor_le y
      exact Int.cast_le.mp (le_trans this h2)
  · constructor
    · have := Int.le_ceil y
      have h3 : ((-B : Int) : K) ≤ ((⌈y⌉ : Int) : K) := by
        push_cast
        exact le_trans h1 this
      exact Int.cast_le.mp h3
    · rw [Int.ceil_le]
      exact h2

/-- The padded interval that `GetVisibleHexes` builds from two opposite numbers of size
at most `2^62` contains `0`: nothing is out of range and nothing wraps. -/
theorem bounded_padded_interval_contains_zero [FloorRing K] (outOfRange : K → Int)
    (a b : K) (hab : b = -a) (ha : |a| ≤ ((2 ^ 62 : Int) : K)) :
    wrap64 (float64ToIntBounded outOfRange (min (mathRound a) (mathRound b)) - 1) ≤ 0 ∧
      0 ≤ wrap64 (float64ToIntBounded outOfRange (max (mathRound a) (mathRound b)) + 1) := by
  have hb : |b| ≤ ((2 ^ 62 : Int) : K) := by rw [hab, abs_neg]; exact ha
  obtain ⟨a1, a2⟩ := mathRound_mem_Icc a _ ha
  obtain ⟨b1, b2⟩ := mathRound_mem_Icc b _ hb
  obtain ⟨m1, m2⟩ := float64ToInt_mem_Icc (min (mathRound a) (mathRound b)) (2 ^ 62)
    (le_min a1 b1) (le_trans (min_le_left _ _) a2)
  obtain ⟨M1, M2⟩ := float64ToInt_mem_Icc (max (mathRound a) (mathRound b)) (2 ^ 62)
    (le_trans a1 (le_max_left _ _)) (max_le a2 b2)
  obtain ⟨z1, z2⟩ := padded_interval_contains_zero a b hab
  rw [float64ToIntBounded_of_InInt64 _ _ (by unfold InInt64; omega),
    float64ToIntBounded_of_InInt64 _ _ (by unfold InInt64; omega),
    wrap64_eq_self (by unfold InInt64; omega), wrap64_eq_self (by unfold InInt64; omega)]
  exact ⟨z1, z2⟩

/-- With a camera at the world origin with zoom `1`, on a grid built by `NewHexGrid`,
the hex `(0,0)` is among the visible hexes as long as the hex coordinates of the view
corners are of size at most `2^62`. -/
theorem HexGrid.origin_mem_GetVisibleHexes [FloorRing K] (outOfRange : K → Int)
    (o : HexOrientation K) (hexSize viewport : Vector2D K) (hw : 0 ≤ viewport.X)
    (hh : 0 ≤ viewport.Y)
    (hq : |o.B0 * (viewport.X / 2 / hexSize.X) + o.B1 * (viewport.Y / 2 / hexSize.Y)|
      ≤ ((2 ^ 62 : Int) : K))
    (hr : |o.B2 * (viewport.X / 2 / hexSize.X) + o.B3 * (viewport.Y / 2 / hexSize.Y)|
      ≤ ((2 ^ 62 : Int) : K)) :
    ({ Q := 0, R := 0 } : Hex K) ∈
      ((NewHexGrid o hexSize).GetVisibleHexes outOfRange
        { GetPosition := { X := 0, Y := 0 }, GetZoom := 1, GetSize := viewport }).1 := by
  rw [HexGrid.mem_GetVisibleHexes]
  refine ⟨0, 0, ?_, ?_, ?_, by simp⟩
  · refine bounded_padded_interval_contains_zero outOfRange _ _ ?_ ?_
    · simp only [HexGrid.viewEndHex, HexGrid.viewStartHex, HexGrid.viewBottomRight,
        HexGrid.viewTopLeft, HexGrid.ScreenToWorld, NewVector2D, NewHexGrid, NewHexLayout,
        HexLayout.Vector2DToHex]
      ring
    · simp only [HexGrid.viewStartHex, HexGrid.viewTopLeft, HexGrid.ScreenToWorld,
        NewVector2D, NewHexGrid, NewHexLayout, HexLayout.Vector2DToHex]
      rw [← abs_neg]
      convert hq using 2
      ring
  · refine bounded_padded_interval_contains_zero outOfRange _ _ ?_ ?_
    · simp only [HexGrid.viewEndHex, HexGrid.viewStartHex, HexGrid.viewBottomRight,
        HexGrid.viewTopLeft, HexGrid.ScreenToWorld, NewVector2D, NewHexGrid, NewHexLayout,
        HexLayout.Vector2DToHex]
      ring
    · simp only [HexGrid.viewStartHex, HexGrid.viewTopLeft, HexGrid.ScreenToWorld,
        NewVector2D, NewHexGrid, NewHexLayout, HexLayout.Vector2DToHex]
      rw [← abs_neg]
      convert hr using 2
      ring
  · simp only [HexGrid.viewBottomRight, HexGrid.viewTopLeft, HexGrid.ScreenToWorld,
      NewVector2D, NewHexGrid, NewHexLayout, HexLayout.HexToVector2D, Int.cast_zero]
    refine ⟨?_, ?_, ?_, ?_⟩ <;> norm_num <;> linarith

theorem float64ToIntBounded_intCast [FloorRing K] (outOfRange : K → Int) (z : Int)
    (hz : InInt64 z) : float64ToIntBounded outOfRange (z : K) = z := by
  rw [float64ToIntBounded_of_InInt64 _ _ (by rw [float64ToInt_intCast]; exact hz),
    float64ToInt_intCast]

theorem mathRound_le_add_half [FloorRing K] (x : K) : mathRound x ≤ x + 1 / 2 := by
  unfold mathRound
  split
  · exact Int.floor_le _
  · have := Int.ceil_lt_add_one (x - 1 / 2)
    linarith

/-- A value below `-2^63 - 1` has no truncation in the `int` range: its conversion is
left to the platform. -/
theorem float64ToIntBounded_of_lt [FloorRing K] (outOfRange : K → Int) (y : K)
    (hy : y < ((-(2 ^ 63) - 1 : Int) : K)) :
    float64ToIntBounded outOfRange y = outOfRange y := by
  apply float64ToIntBounded_of_not_InInt64
  have hneg : y < 0 := by
    have : ((-(2 ^ 63) - 1 : Int) : K) ≤ 0 := by norm_num
    linarith
  have hc : float64ToInt y = ⌈y⌉ := by
    unfold float64ToInt
    rw [if_neg (not_le.mpr hneg)]
  have h1 : ((⌈y⌉ : Int) : K) < y + 1 := Int.ceil_lt_add_one y
  have h2 : ((⌈y⌉ : Int) : K) < ((-(2 ^ 63) : Int) : K) := by
    push_cast at hy ⊢
    linarith
  have h3 : ⌈y⌉ < -(2 ^ 63) := Int.cast_lt.mp h2
  rw [hc]
  unfold InInt64
  omega

/-- A weighted sum of two view half-extents, each at most `2^61` hex sizes, with weights
of size at most `1`, is of size at most `2^62`. -/
theorem corner_coordinate_bound (c1 c2 u v : K) (hc1 : |c1| ≤ 1) (hc2 : |c2| ≤ 1)
    (hu0 : 0 ≤ u) (hu : u ≤ 2 ^ 61) (hv0 : 0 ≤ v) (hv : v ≤ 2 ^ 61) :
    |c1 * u + c2 * v| ≤ ((2 ^ 62 : Int) : K) := by
  obtain ⟨a1, a2⟩ := abs_le.mp hc1
  obtain ⟨b1, b2⟩ := abs_le.mp hc2
  have p1 := mul_nonneg (sub_nonneg.mpr a2) hu0
  have p2 := mul_nonneg (by linarith : (0 : K) ≤ c1 + 1) hu0
  have p3 := mul_nonneg (sub_nonneg.mpr b2) hv0
  have p4 := mul_nonneg (by linarith : (0 : K) ≤ c2 + 1) hv0
  rw [abs_le]
  push_cast
  constructor <;> linarith

theorem half_extent_bound (w s : K) (hs : 0 < s) (hw0 : 0 ≤ w) (hw : w ≤ 2 ^ 62 * s) :
    0 ≤ w / 2 / s ∧ w / 2 / s ≤ 2 ^ 61 := by
  constructor
  · exact div_nonneg (div_nonneg hw0 (by norm_num)) hs.le
  · rw [div_le_iff₀ hs]
    linarith

end Grid

/-! ## The filled hexagon walked by `Spiral` on `int64` hexes -/

section Filled

theorem half_abs_sum_eq_zero_iff (a b : Int) :
    (|a| + |b| + |a + b|) / 2 = 0 ↔ a = 0 ∧ b = 0 := by
  rcases abs_cases a with ⟨h1, h2⟩ | ⟨h1, h2⟩ <;>
  rcases abs_cases b with ⟨h3, h4⟩ | ⟨h3, h4⟩ <;>
  rcases abs_cases (a + b) with ⟨h5, h6⟩ | ⟨h5, h6⟩ <;>
  rw [h1, h3, h5] <;> omega

theorem half_abs_sum_nonneg (a b : Int) : 0 ≤ (|a| + |b| + |a + b|) / 2 := by
  have h1 := abs_nonneg a
  have h2 := abs_nonneg b
  have h3 := abs_nonneg (a + b)
  omega

/-- The ring of radius `k + 1` within a hexagon of radius `n` that stays inside the
`int64` range: no repetition, and exactly the hexes at distance `k + 1`. -/
theorem Hex.SpiralRing_succ_spec (h : Hex Int) (n k : Nat) (hk : k < n)
    (hQ : InInt64 (h.Q - n) ∧ InInt64 (h.Q + n))
    (hR : InInt64 (h.R - n) ∧ InInt64 (h.R + n)) :
    (h.SpiralRing ((k : Int) + 1)).Nodup ∧
      ∀ x : Hex Int, x ∈ h.SpiralRing ((k : Int) + 1) ↔
        (|x.Q - h.Q| + |x.R - h.R| + |(x.Q - h.Q) + (x.R - h.R)|) / 2 = (k : Int) + 1 := by
  have e : ((k : Int) + 1) = ((k + 1 : Nat) : Int) := by push_cast; ring
  have hQ1 : InInt64 (h.Q - ((k + 1 : Nat) : Int)) ∧ InInt64 (h.Q + ((k + 1 : Nat) : Int)) := by
    unfold InInt64 at *
    push_cast
    omega
  have hR1 : InInt64 (h.R - ((k + 1 : Nat) : Int)) ∧ InInt64 (h.R + ((k + 1 : Nat) : Int)) := by
    unfold InInt64 at *
    push_cast
    omega
  rw [e, Hex.SpiralRing_int h (k + 1) (by omega) hQ1 hR1]
  exact ⟨ring_sides_nodup h (k + 1), fun x => mem_ring_sides_iff h x (k + 1) (by omega)⟩

/-- The spiral of radius `n` as the center followed by its rings. -/
theorem Hex.Spiral_eq_flatten {T : Type} [Numeric T] (h : Hex T) (n : Nat) :
    h.Spiral (n : Int)
      = [h] ++ ((List.range n).map fun k : Nat => h.SpiralRing ((k : Int) + 1)).flatten := by
  unfold Hex.Spiral
  rw [Int.toNat_ofNat]
  exact foldl_append_eq_flatten _ _ _

/-- The spiral of radius `n` around an `int64` hex whose hexagon of radius `n` stays
inside the `int64` range: no repetition, and exactly the hexes at distance at most `n`. -/
theorem Hex.Spiral_int_spec (h : Hex Int) (n : Nat)
    (hQ : InInt64 (h.Q - n) ∧ InInt64 (h.Q + n))
    (hR : InInt64 (h.R - n) ∧ InInt64 (h.R + n)) :
    (h.Spiral (n : Int)).Nodup ∧
      ∀ x : Hex Int, x ∈ h.Spiral (n : Int) ↔
        (|x.Q - h.Q| + |x.R - h.R| + |(x.Q - h.Q) + (x.R - h.R)|) / 2 ≤ (n : Int) := by
  have hmem : ∀ x : Hex Int, x ∈ h.Spiral (n : Int) ↔
      (|x.Q - h.Q| + |x.R - h.R| + |(x.Q - h.Q) + (x.R - h.R)|) / 2 ≤ (n : Int) := by
    intro x
    rw [Hex.Spiral_eq_flatten]
    simp only [List.mem_append, List.mem_singleton, List.mem_flatten, List.mem_map,
      List.mem_range]
    constructor
    · rintro (rfl | ⟨l, ⟨k, hk, rfl⟩, hx⟩)
      · simp
      · rw [(Hex.SpiralRing_succ_spec h n k hk hQ hR).2 x] at hx
        omega
    · intro hle
      have h0 := half_abs_sum_nonneg (x.Q - h.Q) (x.R - h.R)
      by_cases hz : (|x.Q - h.Q| + |x.R - h.R| + |(x.Q - h.Q) + (x.R - h.R)|) / 2 = 0
      · left
        have := (half_abs_sum_eq_zero_iff _ _).mp hz
        obtain ⟨xq, xr⟩ := x
        obtain ⟨hq, hr⟩ := h
        simp only at this
        have e1 : xq = hq := by omega
        have e2 : xr = hr := by omega
        rw [e1, e2]
      · right
        have hk : ((|x.Q - h.Q| + |x.R - h.R| + |(x.Q - h.Q) + (x.R - h.R)|) / 2 - 1).toNat
            < n := by omega
        refine ⟨_, ⟨_, hk, rfl⟩, ?_⟩
        rw [(Hex.SpiralRing_succ_spec h n _ hk hQ hR).2 x]
        omega
  refine ⟨?_, hmem⟩
  rw [Hex.Spiral_eq_flatten, List.nodup_append]
  refine ⟨List.nodup_singleton h, ?_, ?_⟩
  · rw [List.nodup_flatten]
    constructor
    · intro l hl
      simp only [List.mem_map, List.mem_range] at hl
      obtain ⟨k, hk, rfl⟩ := hl
      exact (Hex.SpiralRing_succ_spec h n k hk hQ hR).1
    · rw [List.pairwise_map]
      refine List.Pairwise.imp_of_mem ?_ (List.pairwise_lt_range n)
      intro a b ha hb hab
      simp only [List.mem_range] at ha hb
      rw [List.disjoint_left]
      intro x hxa hxb
      rw [(Hex.SpiralRing_succ_spec h n a ha hQ hR).2 x] at hxa
      rw [(Hex.SpiralRing_succ_spec h n b hb hQ hR).2 x] at hxb
      omega
  · rw [List.disjoint_left]
    intro x hx hxl
    simp only [List.mem_singleton] at hx
    subst hx
    simp only [List.mem_flatten, List.mem_map, List.mem_range] at hxl
    obtain ⟨l, ⟨k, hk, rfl⟩, hx⟩ := hxl
    rw [(Hex.SpiralRing_succ_spec x n k hk hQ hR).2 x] at hx
    simp at hx
    omega

end Filled

/-! ## `Circle` as a rotation of a ring -/

section Rotation

theorem wrap64_wrap64_add (a b : Int) : wrap64 (wrap64 a + b) = wrap64 (a + b) := by
  unfold wrap64
  omega

theorem wrap64_add_wrap64 (a b : Int) : wrap64 (a + wrap64 b) = wrap64 (a + b) := by
  unfold wrap64
  omega

theorem wrap64_wrap64 (a : Int) : wrap64 (wrap64 a) = wrap64 a := by
  unfold wrap64
  omega

theorem wrapHex_Add (q r : Int) (d : Hex Int) :
    (wrapHex q r).Add d = wrapHex (q + d.Q) (r + d.R) := by
  simp only [wrapHex, Hex.Add, Numeric.add, wrap64_wrap64_add]

theorem wrapHex_congr {q r q1 r1 : Int} (hq : q = q1) (hr : r = r1) :
    wrapHex q r = wrapHex q1 r1 := by
  rw [hq, hr]

/-- One side of the walk of `Circle` on `int64` hexes, from the wrapped hex `(q, r)`. -/
theorem Hex.circleSide_wrap (d : Hex Int) (n : Nat) (q r : Int) (res : List (Hex Int)) :
    Hex.circleSide d n (wrapHex q r, res)
      = (wrapHex (q + n * d.Q) (r + n * d.R), res ++ wrapCircleSide q r d n) := by
  induction n generalizing q r res with
  | zero => simp [Hex.circleSide, wrapCircleSide]
  | succ n ih =>
    simp only [Hex.circleSide, wrapHex_Add]
    rw [ih]
    simp only [wrapCircleSide, List.range_succ_eq_map, List.map_cons, List.map_map,
      List.append_assoc, List.singleton_append, Prod.mk.injEq, Nat.cast_add, Nat.cast_one]
    refine ⟨wrapHex_congr (by ring) (by ring), ?_⟩
    congr 1
    simp only [Nat.cast_zero, zero_mul, add_zero, List.cons.injEq, true_and]
    apply List.map_congr_left
    intro j _
    simp only [Function.comp, Nat.succ_eq_add_one, Nat.cast_add, Nat.cast_one]
    exact wrapHex_congr (by ring) (by ring)

/-- One side of the walk of `SpiralRing` on `int64` hexes, from the wrapped hex `(q, r)`. -/
theorem Hex.spiralRingSide_wrap (d : Hex Int) (n : Nat) (q r : Int) (res : List (Hex Int)) :
    Hex.spiralRingSide d n (wrapHex q r, res)
      = (wrapHex (q + n * d.Q) (r + n * d.R), res ++ wrapRingSide q r d n) := by
  induction n generalizing q r res with
  | zero => simp [Hex.spiralRingSide, wrapRingSide]
  | succ n ih =>
    simp only [Hex.spiralRingSide, wrapHex_Add]
    rw [ih]
    simp only [wrapRingSide, List.range_succ_eq_map, List.map_cons, List.map_map,
      List.append_assoc, List.singleton_append, Prod.mk.injEq, Nat.cast_add, Nat.cast_one]
    refine ⟨wrapHex_congr (by ring) (by ring), ?_⟩
    congr 1
    simp only [Nat.cast_zero, zero_add, one_mul, List.cons.injEq, true_and]
    apply List.map_congr_left
    intro j _
    simp only [Function.comp, Nat.succ_eq_add_one, Nat.cast_add, Nat.cast_one]
    exact wrapHex_congr (by ring) (by ring)

/-- The side of `Circle` and the side of `SpiralRing` from the same hex along the same
direction share their middle part. -/
theorem wrapCircleSide_succ (q r : Int) (d : Hex Int) (m : Nat) :
    wrapCircleSide q r d (m + 1) = wrapHex q r :: wrapRingSide q r d m := by
  simp only [wrapCircleSide, wrapRingSide, List.range_succ_eq_map, List.map_cons,
    List.map_map, Nat.cast_zero, zero_mul, add_zero, List.cons.injEq, true_and]
  apply List.map_congr_left
  intro j _
  simp only [Function.comp, Nat.succ_eq_add_one, Nat.cast_add, Nat.cast_one]

theorem wrapRingSide_succ (q r : Int) (d : Hex Int) (m : Nat) :
    wrapRingSide q r d (m + 1)
      = wrapRingSide q r d m
        ++ [wrapHex (q + ((m : Int) + 1) * d.Q) (r + ((m : Int) + 1) * d.R)] := by
  simp only [wrapRingSide, List.range_succ, List.map_append, List.map_cons, List.map_nil]

theorem wrapRingSide_length (q r : Int) (d : Hex Int) (m : Nat) :
    (wrapRingSide q r d m).length = m := by
  simp [wrapRingSide]

theorem Hex.circleSide_wrap_to (d : Hex Int) (n : Nat) (q r : Int) (res : List (Hex Int))
    (q1 r1 : Int) (hq : q1 = q + n * d.Q) (hr : r1 = r + n * d.R) :
    Hex.circleSide d n (wrapHex q r, res) = (wrapHex q1 r1, res ++ wrapCircleSide q r d n) := by
  rw [Hex.circleSide_wrap, hq, hr]

theorem Hex.spiralRingSide_wrap_to (d : Hex Int) (n : Nat) (q r : Int)
    (res : List (Hex Int)) (q1 r1 : Int) (hq : q1 = q + n * d.Q) (hr : r1 = r + n * d.R) :
    Hex.spiralRingSide d n (wrapHex q r, res)
      = (wrapHex q1 r1, res ++ wrapRingSide q r d n) := by
  rw [Hex.spiralRingSide_wrap, hq, hr]

/-- The walk of `Circle` on an `int64` hex, written around the point `(h.Q + n, h.R)`:
six sides of `n` hexes, each starting on a corner. -/
theorem Hex.Circle_wrap (h : Hex Int) (n : Nat) :
    h.Circle (n : Int) =
      wrapCircleSide (h.Q + n) (h.R - n) { Q := 1, R := 0 } n ++
      wrapCircleSide (h.Q + n + n) (h.R - n) { Q := 0, R := 1 } n ++
      wrapCircleSide (h.Q + n + n) h.R { Q := -1, R := 1 } n ++
      wrapCircleSide (h.Q + n) (h.R + n) { Q := -1, R := 0 } n ++
      wrapCircleSide (h.Q + n - n) (h.R + n) { Q := 0, R := -1 } n ++
      wrapCircleSide (h.Q + n - n) h.R { Q := 1, R := -1 } n := by
  have hstart : h.Add { Q := (n : Int), R := wrap64 (-(n : Int)) }
      = wrapHex (h.Q + n) (h.R - n) := by
    simp only [Hex.Add, Numeric.add, wrapHex, wrap64_add_wrap64, sub_eq_add_neg]
  have h6 : List.range 6 = [0, 1, 2, 3, 4, 5] := rfl
  have d0 : directionAt Int 0 = { Q := 1, R := 0 } := rfl
  have d1 : directionAt Int 1 = { Q := 0, R := 1 } := rfl
  have d2 : directionAt Int 2 = { Q := -1, R := 1 } := rfl
  have d3 : directionAt Int 3 = { Q := -1, R := 0 } := rfl
  have d4 : directionAt Int 4 = { Q := 0, R := -1 } := rfl
  have d5 : directionAt Int 5 = { Q := 1, R := -1 } := rfl
  unfold Hex.Circle
  rw [if_neg (by omega)]
  simp only [Numeric.ofInt64, hstart, h6, List.foldl_cons, List.foldl_nil, Int.toNat_ofNat,
    d0, d1, d2, d3, d4, d5]
  rw [Hex.circleSide_wrap_to { Q := 1, R := 0 } n _ _ _ (h.Q + n + n) (h.R - n)
    (by simp only; ring) (by simp only; ring)]
  rw [Hex.circleSide_wrap_to { Q := 0, R := 1 } n _ _ _ (h.Q + n + n) h.R
    (by simp only; ring) (by simp only; ring)]
  rw [Hex.circleSide_wrap_to { Q := -1, R := 1 } n _ _ _ (h.Q + n) (h.R + n)
    (by simp only; ring) (by simp only; ring)]
  rw [Hex.circleSide_wrap_to { Q := -1, R := 0 } n _ _ _ (h.Q + n - n) (h.R + n)
    (by simp only; ring) (by simp only; ring)]
  rw [Hex.circleSide_wrap_to { Q := 0, R := -1 } n _ _ _ (h.Q + n - n) h.R
    (by simp only; ring) (by simp only; ring)]
  rw [Hex.circleSide_wrap_to { Q := 1, R := -1 } n _ _ _ (h.Q + n) (h.R - n)
    (by simp only; ring) (by simp only; ring)]
  simp only [List.nil_append, List.append_assoc]

/-- The walk of `SpiralRing` around the `int64` hex `h.Add(Hex(n, 0))`, written around the
point `(h.Q + n, h.R)`: six sides of `n` hexes, each ending on a corner. -/
theorem Hex.SpiralRing_shifted_wrap (h : Hex Int) (n : Nat) (hn : 0 < n) :
    (h.Add (Hex.NewHex (n : Int) 0)).SpiralRing (n : Int) =
      wrapRingSide (h.Q + n + n) h.R { Q := -1, R := 1 } n ++
      wrapRingSide (h.Q + n) (h.R + n) { Q := -1, R := 0 } n ++
      wrapRingSide (h.Q + n - n) (h.R + n) { Q := 0, R := -1 } n ++
      wrapRingSide (h.Q + n - n) h.R { Q := 1, R := -1 } n ++
      wrapRingSide (h.Q + n) (h.R - n) { Q := 1, R := 0 } n ++
      wrapRingSide (h.Q + n + n) (h.R - n) { Q := 0, R := 1 } n := by
  have e1 : ((directions.getD 0 { Q := 0, R := 0 }).Multiply (n : Int)).Q
      = wrap64 (n : Int) := by
    simp only [directions, List.getD_cons_zero, Hex.Multiply, Numeric.mul, one_mul]
  have e2 : ((directions.getD 0 { Q := 0, R := 0 }).Multiply (n : Int)).R = 0 := by
    simp only [directions, List.getD_cons_zero, Hex.Multiply, Numeric.mul, zero_mul]
    rfl
  have e3 : wrap64 (-0) = 0 := rfl
  have hstart : (h.Add (Hex.NewHex (n : Int) 0)).Add { Q := wrap64 (n : Int), R := 0 }
      = wrapHex (h.Q + n + n) h.R := by
    simp only [Hex.Add, Hex.NewHex, Numeric.add, wrapHex, wrap64_add_wrap64,
      wrap64_wrap64_add, add_zero, wrap64_wrap64]
  have h6 : List.range 6 = [0, 1, 2, 3, 4, 5] := rfl
  have d0 : directionAt Int 0 = { Q := 1, R := 0 } := rfl
  have d1 : directionAt Int 1 = { Q := 0, R := 1 } := rfl
  have d2 : directionAt Int 2 = { Q := -1, R := 1 } := rfl
  have d3 : directionAt Int 3 = { Q := -1, R := 0 } := rfl
  have d4 : directionAt Int 4 = { Q := 0, R := -1 } := rfl
  have d5 : directionAt Int 5 = { Q := 1, R := -1 } := rfl
  unfold Hex.SpiralRing
  rw [if_neg (by omega), if_neg (by omega)]
  simp only [e1, e2, e3, Numeric.ofInt64, hstart, h6, List.foldl_cons, List.foldl_nil,
    Int.toNat_ofNat]
  norm_num only [d0, d1, d2, d3, d4, d5]
  rw [Hex.spiralRingSide_wrap_to { Q := -1, R := 1 } n _ _ _ (h.Q + n) (h.R + n)
    (by simp only; ring) (by simp only; ring)]
  rw [Hex.spiralRingSide_wrap_to { Q := -1, R := 0 } n _ _ _ (h.Q + n - n) (h.R + n)
    (by simp only; ring) (by simp only; ring)]
  rw [Hex.spiralRingSide_wrap_to { Q := 0, R := -1 } n _ _ _ (h.Q + n - n) h.R
    (by simp only; ring) (by simp only; ring)]
  rw [Hex.spiralRingSide_wrap_to { Q := 1, R := -1 } n _ _ _ (h.Q + n) (h.R - n)
    (by simp only; ring) (by simp only; ring)]
  rw [Hex.spiralRingSide_wrap_to { Q := 1, R := 0 } n _ _ _ (h.Q + n + n) (h.R - n)
    (by simp only; ring) (by simp only; ring)]
  rw [Hex.spiralRingSide_wrap_to { Q := 0, R := 1 } n _ _ _ (h.Q + n + n) h.R
    (by simp only; ring) (by simp only; ring)]
  simp only [List.nil_append, List.append_assoc]

theorem wrapRingSide_succ_to (q r : Int) (d : Hex Int) (m : Nat) (q1 r1 : Int)
    (hq : q1 = q + ((m : Int) + 1) * d.Q) (hr : r1 = r + ((m : Int) + 1) * d.R) :
    wrapRingSide q r d (m + 1) = wrapRingSide q r d m ++ [wrapHex q1 r1] := by
  rw [wrapRingSide_succ, hq, hr]

/-- Six sides that each end on a corner, rotated by four sides less one element, are the
six sides that each start on the corner before. -/
theorem rotate_six_sides {α : Type} (m : Nat) (M0 M1 M2 M3 M4 M5 : List α)
    (P0 P1 P2 P3 P4 P5 : α) (h0 : M0.length = m) (h1 : M1.length = m) (h2 : M2.length = m)
    (h3 : M3.length = m) :
    ((M0 ++ [P3]) ++ (M1 ++ [P4]) ++ (M2 ++ [P5]) ++ (M3 ++ [P0]) ++ (M4 ++ [P1])
        ++ (M5 ++ [P2])).rotate (4 * (m + 1) - 1)
      = (P0 :: M4) ++ (P1 :: M5) ++ (P2 :: M0) ++ (P3 :: M1) ++ (P4 :: M2) ++ (P5 :: M3) := by
  have hsplit : (M0 ++ [P3]) ++ (M1 ++ [P4]) ++ (M2 ++ [P5]) ++ (M3 ++ [P0]) ++ (M4 ++ [P1])
        ++ (M5 ++ [P2])
      = (M0 ++ [P3] ++ M1 ++ [P4] ++ M2 ++ [P5] ++ M3)
        ++ ([P0] ++ M4 ++ [P1] ++ M5 ++ [P2]) := by
    simp only [List.append_assoc]
  have hlen : (M0 ++ [P3] ++ M1 ++ [P4] ++ M2 ++ [P5] ++ M3).length = 4 * (m + 1) - 1 := by
    simp only [List.length_append, List.length_singleton, h0, h1, h2, h3]
    omega
  rw [hsplit, ← hlen, List.rotate_append_length_eq]
  simp only [List.append_assoc, List.cons_append, List.nil_append, List.singleton_append]

/-- The sequence `h.Circle(n)` is the ring of radius `n` around `h.Add(Hex(n, 0))`,
rotated by `4 * n - 1` places. -/
theorem Hex.Circle_eq_rotate (h : Hex Int) (n : Nat) (hn : 0 < n) :
    h.Circle (n : Int)
      = ((h.Add (Hex.NewHex (n : Int) 0)).SpiralRing (n : Int)).rotate (4 * n - 1) := by
  obtain ⟨m, rfl⟩ : ∃ m : Nat, n = m + 1 := ⟨n - 1, by omega⟩
  rw [Hex.Circle_wrap, Hex.SpiralRing_shifted_wrap h (m + 1) hn]
  rw [wrapRingSide_succ_to _ _ { Q := -1, R := 1 } m
    (h.Q + ((m + 1 : Nat) : Int)) (h.R + ((m + 1 : Nat) : Int))
    (by simp only; push_cast; ring) (by simp only; push_cast; ring)]
  rw [wrapRingSide_succ_to _ _ { Q := -1, R := 0 } m
    (h.Q + ((m + 1 : Nat) : Int) - ((m + 1 : Nat) : Int)) (h.R + ((m + 1 : Nat) : Int))
    (by simp only; push_cast; ring) (by simp only; push_cast; ring)]
  rw [wrapRingSide_succ_to _ _ { Q := 0, R := -1 } m
    (h.Q + ((m + 1 : Nat) : Int) - ((m + 1 : Nat) : Int)) h.R
    (by simp only; push_cast; ring) (by simp only; push_cast; ring)]
  rw [wrapRingSide_succ_to _ _ { Q := 1, R := -1 } m
    (h.Q + ((m + 1 : Nat) : Int)) (h.R - ((m + 1 : Nat) : Int))
    (by simp only; push_cast; ring) (by simp only; push_cast; ring)]
  rw [wrapRingSide_succ_to _ _ { Q := 1, R := 0 } m
    (h.Q + ((m + 1 : Nat) : Int) + ((m + 1 : Nat) : Int)) (h.R - ((m + 1 : Nat) : Int))
    (by simp only; push_cast; ring) (by simp only; push_cast; ring)]
  rw [wrapRingSide_succ_to _ _ { Q := 0, R := 1 } m
    (h.Q + ((m + 1 : Nat) : Int) + ((m + 1 : Nat) : Int)) h.R
    (by simp only; push_cast; ring) (by simp only; push_cast; ring)]
  simp only [wrapCircleSide_succ]
  exact (rotate_six_sides m _ _ _ _ _ _ _ _ _ _ _ _ (wrapRingSide_length _ _ _ m)
    (wrapRingSide_length _ _ _ m) (wrapRingSide_length _ _ _ m)
    (wrapRingSide_length _ _ _ m)).symm

end Rotation

/-! ## The round trip through the screen -/

section RoundTrip

end RoundTrip

/-! ## The ends of a line -/

section Line

variable {K : Type} [LinearOrderedField K]

/-- Between two different integer hexes `Distance` reports at least `1`. -/
theorem Hex.one_le_Distance (a b : Hex Int) (hab : a ≠ b) :
    (1 : K) ≤ Hex.Distance (int64ToFloat64 K) a b := by
  have hne : a.Q - b.Q ≠ 0 ∨ a.R - b.R ≠ 0 := by
    by_contra hcon
    push_neg at hcon
    apply hab
    obtain ⟨aq, ar⟩ := a
    obtain ⟨bq, br⟩ := b
    simp only at hcon
    have h1 : aq = bq := by omega
    have h2 : ar = br := by omega
    rw [h1, h2]
  have hq : (0 : K) ≤ |((a.Q - b.Q : Int) : K)| := abs_nonneg _
  have hr : (0 : K) ≤ |((a.R - b.R : Int) : K)| := abs_nonneg _
  have hs : (0 : K) ≤ |(-(a.Q : K) - a.R) - (-(b.Q : K) - b.R)| / 2 :=
    div_nonneg (abs_nonneg _) (by norm_num)
  have hone : ∀ z : Int, z ≠ 0 → (1 : K) ≤ |((z : Int) : K)| := by
    intro z hz
    have : (1 : Int) ≤ |z| := Int.one_le_abs hz
    have h2 : ((1 : Int) : K) ≤ ((|z| : Int) : K) := Int.cast_le.mpr this
    simpa using h2
  simp only [Hex.Distance, int64ToFloat64]
  push_cast at hq hr
  rcases hne with h | h
  · have := hone _ h
    push_cast at this
    linarith
  · have := hone _ h
    push_cast at this
    linarith

/-- The ends of `LineTo` between two different `int64` hexes: at least two samples, the
first is the start (`t = 0`) and the last is the target (`t = 1`). -/
theorem Hex.LineTo_ends [FloorRing K] (nan : Int) (a b : Hex Int) (hab : a ≠ b) :
    2 ≤ (Hex.LineTo (int64ToFloat64 K) (float64ToInt64 nan) a b).length ∧
      (Hex.LineTo (int64ToFloat64 K) (float64ToInt64 nan) a b).head? = some a ∧
      (Hex.LineTo (int64ToFloat64 K) (float64ToInt64 nan) a b).getLast? = some b := by
  have hD : (1 : K) ≤ Hex.Distance (int64ToFloat64 K) a b := Hex.one_le_Distance a b hab
  have hn : 1 ≤ float64ToInt (Hex.Distance (int64ToFloat64 K) a b) := by
    unfold float64ToInt
    rw [if_pos (by linarith)]
    exact Int.le_floor.mpr (by exact_mod_cast hD)
  obtain ⟨m, hm⟩ : ∃ m : Nat,
      float64ToInt (Hex.Distance (int64ToFloat64 K) a b) = (m : Int) + 1 :=
    ⟨(float64ToInt (Hex.Distance (int64ToFloat64 K) a b) - 1).toNat, by omega⟩
  have hlen : ((m : Int) + 1 + 1).toNat = m + 1 + 1 := by omega
  have hne : (((m : Int) + 1 : Int) : K) ≠ 0 := by
    have : ((m : Int) + 1 : Int) ≠ 0 := by omega
    exact_mod_cast this
  unfold Hex.LineTo
  simp only [hm, hlen]
  refine ⟨by simp, ?_, ?_⟩
  · rw [List.range_succ_eq_map]
    simp only [List.map_cons, List.head?_cons, Option.some.injEq]
    simp only [float64Div, if_neg hne, Nat.cast_zero, Int.cast_zero, zero_div, Option.map_some',
      sub_zero, mul_one, mul_zero, add_zero, float64ToInt64, int64ToFloat64,
      float64ToInt_intCast]
  · rw [List.range_succ, List.map_append]
    simp only [List.map_cons, List.map_nil, List.getLast?_concat, Option.some.injEq]
    have hcast : (((m + 1 : Nat) : Int) : K) = (((m : Int) + 1 : Int) : K) := by push_cast; ring
    simp only [float64Div, if_neg hne, hcast, div_self hne, Option.map_some', sub_self,
      mul_zero, mul_one, zero_add, float64ToInt64, int64ToFloat64, float64ToInt_intCast]

end Line

/-! ## The origin in view -/

section OriginInView

theorem LayoutPointy_entries_le_one :
    |(LayoutPointy Real.sqrt).B0| ≤ 1 ∧ |(LayoutPointy Real.sqrt).B1| ≤ 1 ∧
      |(LayoutPointy Real.sqrt).B2| ≤ 1 ∧ |(LayoutPointy Real.sqrt).B3| ≤ 1 := by
  obtain ⟨hlo, hhi⟩ := sqrt_three_bounds
  simp only [LayoutPointy]
  refine ⟨?_, ?_, ?_, ?_⟩
  · rw [abs_le]
    constructor <;> linarith
  · rw [abs_le]
    constructor <;> norm_num
  · simp
  · rw [abs_le]
    constructor <;> norm_num

theorem LayoutFlat_entries_le_one :
    |(LayoutFlat Real.sqrt).B0| ≤ 1 ∧ |(LayoutFlat Real.sqrt).B1| ≤ 1 ∧
      |(LayoutFlat Real.sqrt).B2| ≤ 1 ∧ |(LayoutFlat Real.sqrt).B3| ≤ 1 := by
  obtain ⟨hlo, hhi⟩ := sqrt_three_bounds
  simp only [LayoutFlat]
  refine ⟨?_, ?_, ?_, ?_⟩
  · rw [abs_le]
    constructor <;> norm_num
  · simp
  · rw [abs_le]
    constructor <;> norm_num
  · rw [abs_le]
    constructor <;> linarith

/-- The origin is in view for an orientation whose backward matrix has entries of size at
most `1`, when the view is at most `2^62` hex sizes wide and high. -/
theorem HexGrid.origin_mem_of_entries_le_one (outOfRange : ℝ → Int) (o : HexOrientation ℝ)
    (ho : |o.B0| ≤ 1 ∧ |o.B1| ≤ 1 ∧ |o.B2| ≤ 1 ∧ |o.B3| ≤ 1)
    (hexSize viewport : Vector2D ℝ) (hsx : 0 < hexSize.X) (hsy : 0 < hexSize.Y)
    (hw : 0 ≤ viewport.X) (hh : 0 ≤ viewport.Y) (hW : viewport.X ≤ 2 ^ 62 * hexSize.X)
    (hH : viewport.Y ≤ 2 ^ 62 * hexSize.Y) :
    ({ Q := 0, R := 0 } : Hex ℝ) ∈
      ((NewHexGrid o hexSize).GetVisibleHexes outOfRange
        { GetPosition := { X := 0, Y := 0 }, GetZoom := 1, GetSize := viewport }).1 := by
  obtain ⟨u0, u1⟩ := half_extent_bound viewport.X hexSize.X hsx hw hW
  obtain ⟨v0, v1⟩ := half_extent_bound viewport.Y hexSize.Y hsy hh hH
  exact HexGrid.origin_mem_GetVisibleHexes outOfRange o hexSize viewport hw hh
    (corner_coordinate_bound _ _ _ _ ho.1 ho.2.1 u0 u1 v0 v1)
    (corner_coordinate_bound _ _ _ _ ho.2.2.1 ho.2.2.2 u0 u1 v0 v1)

end OriginInView

/-! ## Claims -/

section Claims

variable {T : Type} [Numeric T]

/-- C1 (code defect): `Distance` does not return the step distance
`(|Δq| + |Δr| + |Δs|) / 2`. The source computes `|Δq| + |Δr| + |Δs| / 2`, so from `(0,0)`
to `(1,0)` it returns `3/2` where the step distance is `1`, and it agrees with the step
distance only when the two hexes are equal. -/
theorem C1_Distance_not_step_distance :
    Hex.Distance (int64ToFloat64 ℚ) { Q := 0, R := 0 } { Q := 1, R := 0 } = 3 / 2 ∧
      specDistance ℚ { Q := 0, R := 0 } { Q := 1, R := 0 } = 1 ∧
      ∀ a b : Hex Int, Hex.Distance (int64ToFloat64 ℚ) a b = specDistance ℚ a b ↔ a = b := by
  refine ⟨by norm_num [Hex.Distance, int64ToFloat64], by norm_num [specDistance], ?_⟩
  intro a b
  constructor
  · intro hab
    simp only [Hex.Distance, specDistance, int64ToFloat64] at hab
    push_cast at hab
    have hq := abs_nonneg ((a.Q : ℚ) - b.Q)
    have hr := abs_nonneg ((a.R : ℚ) - b.R)
    have hq0 : |(a.Q : ℚ) - b.Q| = 0 := by linarith
    have hr0 : |(a.R : ℚ) - b.R| = 0 := by linarith
    have eq : a.Q = b.Q := by
      have := sub_eq_zero.mp (abs_eq_zero.mp hq0)
      exact_mod_cast this
    have er : a.R = b.R := by
      have := sub_eq_zero.mp (abs_eq_zero.mp hr0)
      exact_mod_cast this
    obtain ⟨aq, ar⟩ := a
    obtain ⟨bq, br⟩ := b
    simp only at eq er
    rw [eq, er]
  · rintro rfl
    simp [Hex.Distance, specDistance]

/-- C2 (as stated, refuted): around the `int64` hex `(2^63 - 1, 0)` the walk of
`SpiralRing 1` wraps around, and lists `(-2^63, 0)`, which is not at hex distance `1`. -/
theorem C2_SpiralRing_wraps_at_max :
    ¬ ((Hex.SpiralRing ({ Q := 2 ^ 63 - 1, R := 0 } : Hex Int) 1).Nodup ∧
      ∀ x : Hex Int, x ∈ Hex.SpiralRing ({ Q := 2 ^ 63 - 1, R := 0 } : Hex Int) 1 ↔
        (|x.Q - (2 ^ 63 - 1)| + |x.R - 0| + |(x.Q - (2 ^ 63 - 1)) + (x.R - 0)|) / 2 = 1) := by
  rintro ⟨-, hmem⟩
  have hin : ({ Q := -(2 ^ 63), R := 0 } : Hex Int) ∈
      Hex.SpiralRing ({ Q := 2 ^ 63 - 1, R := 0 } : Hex Int) 1 := by decide
  have := (hmem _).1 hin
  norm_num at this

/-- C2 (amended): for every `int64` hex `h` and radius `r > 0` such that `h.Q - r`,
`h.Q + r`, `h.R - r` and `h.R + r` are all `int64` values, `h.SpiralRing r` enumerates the
ring of radius `r` around `h` without repetition: no hex occurs twice, and a hex `x`
occurs if and only if its hex distance from `h` is exactly `r`. -/
theorem C2_SpiralRing_enumerates_ring (h : Hex Int) (r : Int) (hr : 0 < r)
    (hQ : InInt64 (h.Q - r) ∧ InInt64 (h.Q + r))
    (hR : InInt64 (h.R - r) ∧ InInt64 (h.R + r)) :
    (h.SpiralRing r).Nodup ∧
      ∀ x : Hex Int, x ∈ h.SpiralRing r ↔
        (|x.Q - h.Q| + |x.R - h.R| + |(x.Q - h.Q) + (x.R - h.R)|) / 2 = r := by
  obtain ⟨n, rfl⟩ := Int.eq_ofNat_of_zero_le hr.le
  have hn : 0 < n := by omega
  rw [Hex.SpiralRing_int h n hn hQ hR]
  exact ⟨ring_sides_nodup h n, fun x => mem_ring_sides_iff h x n hn⟩

/-- C2 (amended) at a concrete input: the ring of radius `2` around `(3, -1)`. -/
theorem C2_SpiralRing_enumerates_ring_witness :
    (Hex.SpiralRing ({ Q := 3, R := -1 } : Hex Int) 2).Nodup ∧
      ∀ x : Hex Int, x ∈ Hex.SpiralRing ({ Q := 3, R := -1 } : Hex Int) 2 ↔
        (|x.Q - 3| + |x.R - (-1)| + |(x.Q - 3) + (x.R - (-1))|) / 2 = 2 :=
  C2_SpiralRing_enumerates_ring { Q := 3, R := -1 } 2 (by decide)
    ⟨by decide, by decide⟩ ⟨by decide, by decide⟩

/-- C3: for every hex `h` and every integer radius `r`, `h.SpiralRing r` is the empty
sequence when `r < 0`, is exactly `[h]` when `r = 0`, and has exactly `6 * r` elements
when `r > 0`. -/
theorem C3_SpiralRing_length (h : Hex T) (r : Int) :
    (r < 0 → h.SpiralRing r = []) ∧ (r = 0 → h.SpiralRing r = [h]) ∧
      (0 < r → ((h.SpiralRing r).length : Int) = 6 * r) := by
  refine ⟨fun hr => ?_, fun hr => ?_, fun hr => ?_⟩
  · simp [Hex.SpiralRing, hr]
  · simp [Hex.SpiralRing, hr]
  · rw [Hex.SpiralRing_length_nat h r hr]
    omega

/-- C3 at concrete inputs: the rings of radius `-1`, `0` and `2` around `(3, -1)`. -/
theorem C3_SpiralRing_length_witness :
    (Hex.SpiralRing ({ Q := 3, R := -1 } : Hex Int) (-1) = []) ∧
      (Hex.SpiralRing ({ Q := 3, R := -1 } : Hex Int) 0 = [{ Q := 3, R := -1 }]) ∧
      (((Hex.SpiralRing ({ Q := 3, R := -1 } : Hex Int) 2).length : Int) = 6 * 2) :=
  ⟨(C3_SpiralRing_length _ (-1)).1 (by decide), (C3_SpiralRing_length _ 0).2.1 rfl,
    (C3_SpiralRing_length _ 2).2.2 (by decide)⟩

/-- C4: for every hex `h` and every radius `r ≥ 0`, `h.Spiral r` is `[h]` followed by
`h.SpiralRing 1`, ..., `h.SpiralRing r` concatenated in that order, and has exactly
`1 + 3 * r * (r + 1)` elements. -/
theorem C4_Spiral_eq_rings (h : Hex T) (r : Int) (hr : 0 ≤ r) :
    h.Spiral r
        = [h] ++ ((List.range r.toNat).map fun k : Nat => h.SpiralRing ((k : Int) + 1)).flatten ∧
      ((h.Spiral r).length : Int) = 1 + 3 * r * (r + 1) := by
  have heq : h.Spiral r
      = [h] ++ ((List.range r.toNat).map fun k : Nat => h.SpiralRing ((k : Int) + 1)).flatten := by
    unfold Hex.Spiral
    exact foldl_append_eq_flatten _ _ _
  refine ⟨heq, ?_⟩
  rw [heq, List.length_append, rings_length, List.length_singleton]
  obtain ⟨n, rfl⟩ := Int.eq_ofNat_of_zero_le hr
  simp only [Int.toNat_ofNat]
  push_cast
  ring

/-- C4 at a concrete input: the spiral of radius `2` around `(3, -1)`. -/
theorem C4_Spiral_eq_rings_witness :
    Hex.Spiral ({ Q := 3, R := -1 } : Hex Int) 2
        = [{ Q := 3, R := -1 }] ++ ((List.range (2 : Int).toNat).map fun k : Nat =>
            Hex.SpiralRing ({ Q := 3, R := -1 } : Hex Int) ((k : Int) + 1)).flatten ∧
      ((Hex.Spiral ({ Q := 3, R := -1 } : Hex Int) 2).length : Int) = 1 + 3 * 2 * (2 + 1) :=
  C4_Spiral_eq_rings _ 2 (by decide)

/-- C5 (code defect): the elements of `Circle` are not all at distance `r` from the
center. `Circle 1` around `(0,0)` walks the ring around `(1,0)`: it lists `(2,-1)`, at
hex distance `2` from the center, and the center itself. -/
theorem C5_Circle_off_center :
    Hex.Circle ({ Q := 0, R := 0 } : Hex Int) 1 =
        [{ Q := 1, R := -1 }, { Q := 2, R := -1 }, { Q := 2, R := 0 },
         { Q := 1, R := 1 }, { Q := 0, R := 1 }, { Q := 0, R := 0 }] ∧
      (|(2 : Int) - 0| + |(-1 : Int) - 0| + |((2 : Int) - 0) + ((-1 : Int) - 0)|) / 2 = 2 := by
  constructor
  · decide
  · decide

/-- C6: for every hex `h` and every integer radius `r`, `h.Circle r` has exactly `6 * r`
elements when `r > 0` and is the empty sequence when `r ≤ 0`; in particular `Circle 0`
is empty and does not contain the center. -/
theorem C6_Circle_length (h : Hex T) (r : Int) :
    (0 < r → ((h.Circle r).length : Int) = 6 * r) ∧ (r ≤ 0 → h.Circle r = []) := by
  refine ⟨fun hr => ?_, fun hr => ?_⟩
  · rw [Hex.Circle_length_nat h r hr.le]
    omega
  · rcases lt_or_eq_of_le hr with hneg | rfl
    · simp [Hex.Circle, hneg]
    · apply List.eq_nil_of_length_eq_zero
      rw [Hex.Circle_length_nat h 0 le_rfl]
      rfl

/-- C6 at concrete inputs: the circles of radius `2`, `0` and `-3` around `(3, -1)`. -/
theorem C6_Circle_length_witness :
    (((Hex.Circle ({ Q := 3, R := -1 } : Hex Int) 2).length : Int) = 6 * 2) ∧
      (Hex.Circle ({ Q := 3, R := -1 } : Hex Int) 0 = []) ∧
      (Hex.Circle ({ Q := 3, R := -1 } : Hex Int) (-3) = []) :=
  ⟨(C6_Circle_length _ 2).1 (by decide), (C6_Circle_length _ 0).2 (by decide),
    (C6_Circle_length _ (-3)).2 (by decide)⟩

/-- C7: for every hex `h`, `h.Neighbours` has exactly 6 elements, and its `i`-th element
is `h` plus the `i`-th entry of the direction table `(1,0), (0,1), (-1,1), (-1,0), (0,-1),
(1,-1)`, in that order. -/
theorem C7_Neighbours_table (h : Hex T) :
    h.Neighbours.length = 6 ∧
      h.Neighbours =
        [h.Add { Q := Numeric.ofInt64 1, R := Numeric.ofInt64 0 },
         h.Add { Q := Numeric.ofInt64 0, R := Numeric.ofInt64 1 },
         h.Add { Q := Numeric.ofInt64 (-1), R := Numeric.ofInt64 1 },
         h.Add { Q := Numeric.ofInt64 (-1), R := Numeric.ofInt64 0 },
         h.Add { Q := Numeric.ofInt64 0, R := Numeric.ofInt64 (-1) },
         h.Add { Q := Numeric.ofInt64 1, R := Numeric.ofInt64 (-1) }] ∧
      ∀ i, i < 6 → h.Neighbours.get? i = some (h.Add (directionAt T i)) := by
  refine ⟨rfl, rfl, fun i hi => ?_⟩
  interval_cases i <;> rfl

/-- C8 (code defect): `Distance` reports `3/2` or `2`, never `1`, for the neighbours of
`(0,0)`, in the order of `Neighbours`. -/
theorem C8_Distance_of_Neighbours :
    (Hex.Neighbours ({ Q := 0, R := 0 } : Hex Int)).map
        (Hex.Distance (int64ToFloat64 ℚ) { Q := 0, R := 0 })
      = [3 / 2, 3 / 2, 2, 3 / 2, 3 / 2, 2] := by
  have hn : Hex.Neighbours ({ Q := 0, R := 0 } : Hex Int) =
      [{ Q := 1, R := 0 }, { Q := 0, R := 1 }, { Q := -1, R := 1 },
       { Q := -1, R := 0 }, { Q := 0, R := -1 }, { Q := 1, R := -1 }] := by decide
  rw [hn]
  norm_num [Hex.Distance, int64ToFloat64]

/-- C9: reading `float64` arithmetic as exact real arithmetic, for `LayoutPointy` and
for `LayoutFlat`, for every layout with zoom `1`, non-zero size components and any
origin, and every integer-valued hex `h`,
`layout.Vector2DToHex(layout.HexToVector2D(h)).Round() = h`. -/
theorem C9_round_trip (size origin : Vector2D ℝ) (hx : size.X ≠ 0) (hy : size.Y ≠ 0)
    (q r : Int) :
    ((NewHexLayout (LayoutPointy Real.sqrt) size origin 1).Vector2DToHex
        ((NewHexLayout (LayoutPointy Real.sqrt) size origin 1).HexToVector2D
          { Q := (q : ℝ), R := (r : ℝ) })).Round = { Q := (q : ℝ), R := (r : ℝ) } ∧
      ((NewHexLayout (LayoutFlat Real.sqrt) size origin 1).Vector2DToHex
        ((NewHexLayout (LayoutFlat Real.sqrt) size origin 1).HexToVector2D
          { Q := (q : ℝ), R := (r : ℝ) })).Round = { Q := (q : ℝ), R := (r : ℝ) } := by
  rw [Vector2DToHex_HexToVector2D_pointy size origin hx hy,
    Vector2DToHex_HexToVector2D_flat size origin hx hy]
  simp only [Hex.Round, mathRound_intCast, and_self]

/-- C9 at a concrete input: size `(10, 20)`, origin `(5, -7)`, hex `(2, -3)`. -/
theorem C9_round_trip_witness :
    ((NewHexLayout (LayoutPointy Real.sqrt) { X := 10, Y := 20 } { X := 5, Y := -7 }
          1).Vector2DToHex
        ((NewHexLayout (LayoutPointy Real.sqrt) { X := 10, Y := 20 } { X := 5, Y := -7 }
          1).HexToVector2D
          { Q := ((2 : Int) : ℝ), R := ((-3 : Int) : ℝ) })).Round
        = { Q := ((2 : Int) : ℝ), R := ((-3 : Int) : ℝ) } ∧
      ((NewHexLayout (LayoutFlat Real.sqrt) { X := 10, Y := 20 } { X := 5, Y := -7 }
          1).Vector2DToHex
        ((NewHexLayout (LayoutFlat Real.sqrt) { X := 10, Y := 20 } { X := 5, Y := -7 }
          1).HexToVector2D
          { Q := ((2 : Int) : ℝ), R := ((-3 : Int) : ℝ) })).Round
        = { Q := ((2 : Int) : ℝ), R := ((-3 : Int) : ℝ) } :=
  C9_round_trip { X := 10, Y := 20 } { X := 5, Y := -7 } (by norm_num) (by norm_num) 2 (-3)

/-- C10 (as stated, refuted): for the pointy layout with size `(10,10)`, origin `(0,0)`
and zoom `1`, the `Y` of `HexToVector2D(Hex(1,0))` is not within `0.01` of `15.0`: it
is `0`. -/
theorem C10_HexToVector2D_Y_not_15 :
    ¬ (|((NewHexLayout (LayoutPointy Real.sqrt) { X := 10, Y := 10 } { X := 0, Y := 0 }
            1).HexToVector2D { Q := 1, R := 0 }).X - 17.32| ≤ 0.01 ∧
        |((NewHexLayout (LayoutPointy Real.sqrt) { X := 10, Y := 10 } { X := 0, Y := 0 }
            1).HexToVector2D { Q := 1, R := 0 }).Y - 15.0| ≤ 0.01) := by
  rintro ⟨-, hy⟩
  norm_num [HexLayout.HexToVector2D, NewHexLayout, LayoutPointy] at hy

/-- C10 (amended): for the pointy layout with size `(10,10)`, origin `(0,0)` and zoom `1`,
`HexToVector2D(Hex(1,0))` is approximately `(17.32, 0)`: its `X` is within `0.01` of
`17.32` and its `Y` is `0`. -/
theorem C10_HexToVector2D_east :
    |((NewHexLayout (LayoutPointy Real.sqrt) { X := 10, Y := 10 } { X := 0, Y := 0 }
          1).HexToVector2D { Q := 1, R := 0 }).X - 17.32| ≤ 0.01 ∧
      ((NewHexLayout (LayoutPointy Real.sqrt) { X := 10, Y := 10 } { X := 0, Y := 0 }
          1).HexToVector2D { Q := 1, R := 0 }).Y = 0 := by
  obtain ⟨hlo, hhi⟩ := sqrt_three_bounds
  constructor
  · simp only [HexLayout.HexToVector2D, NewHexLayout, LayoutPointy]
    rw [abs_le]
    constructor <;> norm_num <;> linarith
  · norm_num [HexLayout.HexToVector2D, NewHexLayout, LayoutPointy]

/-- C11: reading `float64` arithmetic as exact real arithmetic, for every camera with
zoom `≠ 0` and every point `p`, `WorldToScreen(p)` is
`(p - camera.position) * camera.zoom + camera.size / 2`, and `ScreenToWorld` is its
two-sided inverse. -/
theorem C11_WorldToScreen_ScreenToWorld (grid : HexGrid ℝ) (camera : Camera ℝ)
    (hz : camera.GetZoom ≠ 0) (p : Vector2D ℝ) :
    (grid.WorldToScreen p camera).1 =
        { X := (p.X - camera.GetPosition.X) * camera.GetZoom + camera.GetSize.X / 2,
          Y := (p.Y - camera.GetPosition.Y) * camera.GetZoom + camera.GetSize.Y / 2 } ∧
      (grid.ScreenToWorld (grid.WorldToScreen p camera).1 camera).1 = p ∧
      (grid.WorldToScreen (grid.ScreenToWorld p camera).1 camera).1 = p := by
  obtain ⟨x, y⟩ := p
  refine ⟨rfl, ?_, ?_⟩
  · simp only [HexGrid.ScreenToWorld, HexGrid.WorldToScreen, NewVector2D, Vector2D.mk.injEq]
    constructor <;> field_simp
  · simp only [HexGrid.ScreenToWorld, HexGrid.WorldToScreen, NewVector2D, Vector2D.mk.injEq]
    constructor <;> field_simp <;> ring

/-- C11 at a concrete input: camera at `(3, -4)` with zoom `2` and size `(800, 600)`,
point `(10, 20)`, on a pointy grid of size `(10, 10)`. -/
theorem C11_WorldToScreen_ScreenToWorld_witness :
    ((NewHexGrid (LayoutPointy Real.sqrt) { X := 10, Y := 10 }).WorldToScreen
        { X := 10, Y := 20 }
        { GetPosition := { X := 3, Y := -4 }, GetZoom := 2,
          GetSize := { X := 800, Y := 600 } }).1 =
        { X := ((10 : ℝ) - 3) * 2 + 800 / 2, Y := ((20 : ℝ) - -4) * 2 + 600 / 2 } ∧
      ((NewHexGrid (LayoutPointy Real.sqrt) { X := 10, Y := 10 }).ScreenToWorld
        ((NewHexGrid (LayoutPointy Real.sqrt) { X := 10, Y := 10 }).WorldToScreen
          { X := 10, Y := 20 }
          { GetPosition := { X := 3, Y := -4 }, GetZoom := 2,
            GetSize := { X := 800, Y := 600 } }).1
        { GetPosition := { X := 3, Y := -4 }, GetZoom := 2,
          GetSize := { X := 800, Y := 600 } }).1 = { X := 10, Y := 20 } ∧
      ((NewHexGrid (LayoutPointy Real.sqrt) { X := 10, Y := 10 }).WorldToScreen
        ((NewHexGrid (LayoutPointy Real.sqrt) { X := 10, Y := 10 }).ScreenToWorld
          { X := 10, Y := 20 }
          { GetPosition := { X := 3, Y := -4 }, GetZoom := 2,
            GetSize := { X := 800, Y := 600 } }).1
        { GetPosition := { X := 3, Y := -4 }, GetZoom := 2,
          GetSize := { X := 800, Y := 600 } }).1 = { X := 10, Y := 20 } :=
  C11_WorldToScreen_ScreenToWorld (NewHexGrid (LayoutPointy Real.sqrt) { X := 10, Y := 10 })
    { GetPosition := { X := 3, Y := -4 }, GetZoom := 2, GetSize := { X := 800, Y := 600 } }
    (by norm_num) { X := 10, Y := 20 }

/-- C12: on the explicit grid state, after `grid.ScreenToHex(p, cam)` the layout's `Zoom`
equals `cam.GetZoom()` while `Orientation`, `Size` and `Origin` are unchanged; and
`WorldToScreen`, `ScreenToWorld`, `HexToScreen`, `GetVisibleHexes`, `HexCornerScreen` and
`HexImageToScreen` leave the grid, so every layout field, unchanged. -/
theorem C12_layout_frame {K : Type} [LinearOrderedField K] [FloorRing K] (cos sin : K → K)
    (pi : K) (outOfRange : K → Int) (grid : HexGrid K) (camera : Camera K) (p : Vector2D K)
    (hex : Hex K) (imageDefaultSize : Vector2D K) :
    ((grid.ScreenToHex p camera).2.Layout.Zoom = camera.GetZoom ∧
        (grid.ScreenToHex p camera).2.Layout.Orientation = grid.Layout.Orientation ∧
        (grid.ScreenToHex p camera).2.Layout.Size = grid.Layout.Size ∧
        (grid.ScreenToHex p camera).2.Layout.Origin = grid.Layout.Origin) ∧
      (grid.WorldToScreen p camera).2 = grid ∧
      (grid.ScreenToWorld p camera).2 = grid ∧
      (grid.HexToScreen hex camera).2 = grid ∧
      (grid.GetVisibleHexes outOfRange camera).2 = grid ∧
      (grid.HexCornerScreen cos sin pi hex camera).2 = grid ∧
      (grid.HexImageToScreen hex imageDefaultSize camera).2 = grid :=
  ⟨⟨rfl, rfl, rfl, rfl⟩, HexGrid.WorldToScreen_snd grid p camera,
    HexGrid.ScreenToWorld_snd grid p camera, HexGrid.HexToScreen_snd grid hex camera,
    HexGrid.GetVisibleHexes_snd outOfRange grid camera,
    HexGrid.HexCornerScreen_snd cos sin pi grid hex camera,
    HexGrid.HexImageToScreen_snd grid hex imageDefaultSize camera⟩

/-- C13 (code defect): `GetVisibleHexes` does not return all hexes whose center is in
view. On the pointy grid of size `(10, 10)` with the camera at `(0, 0)`, zoom `1` and a
`200 x 300` view, the center `(0, -120)` of the hex `(4, -8)` lies in the view rectangle
`[-100, 100] x [-150, 150]`, but the hex is not returned: the box of candidates is built
from two corners of the view only and reaches no further than `q = 2`. -/
theorem C13_GetVisibleHexes_misses_hex (outOfRange : ℝ → Int) :
    (((NewHexGrid (LayoutPointy Real.sqrt) { X := 10, Y := 10 }).ScreenToWorld
            (NewVector2D 0 0)
            { GetPosition := { X := 0, Y := 0 }, GetZoom := 1,
              GetSize := { X := 200, Y := 300 } }).1 = { X := -100, Y := -150 } ∧
        ((NewHexGrid (LayoutPointy Real.sqrt) { X := 10, Y := 10 }).ScreenToWorld
            (NewVector2D 200 300)
            { GetPosition := { X := 0, Y := 0 }, GetZoom := 1,
              GetSize := { X := 200, Y := 300 } }).1 = { X := 100, Y := 150 } ∧
        (NewHexGrid (LayoutPointy Real.sqrt) { X := 10, Y := 10 }).Layout.HexToVector2D
            { Q := ((4 : Int) : ℝ), R := ((-8 : Int) : ℝ) } = { X := 0, Y := -120 }) ∧
      ({ Q := ((4 : Int) : ℝ), R := ((-8 : Int) : ℝ) } : Hex ℝ) ∉
        ((NewHexGrid (LayoutPointy Real.sqrt) { X := 10, Y := 10 }).GetVisibleHexes
          outOfRange
          { GetPosition := { X := 0, Y := 0 }, GetZoom := 1,
            GetSize := { X := 200, Y := 300 } }).1 := by
  obtain ⟨hlo, hhi⟩ := sqrt_three_bounds
  refine ⟨⟨?_, ?_, ?_⟩, ?_⟩
  · norm_num [HexGrid.ScreenToWorld, NewVector2D]
  · norm_num [HexGrid.ScreenToWorld, NewVector2D]
  · simp only [NewHexGrid, NewHexLayout, LayoutPointy, HexLayout.HexToVector2D, NewVector2D,
      Vector2D.mk.injEq]
    constructor
    · push_cast
      ring
    · push_cast
      ring
  · intro hmem
    rw [HexGrid.mem_GetVisibleHexes] at hmem
    obtain ⟨q, r, ⟨-, hq⟩, -, -, hx⟩ := hmem
    have hq4 : q = 4 := by
      have := (Hex.mk.inj hx).1
      exact_mod_cast this.symm
    have hs : ((NewHexGrid (LayoutPointy Real.sqrt) { X := 10, Y := 10 }).viewStartHex
        { GetPosition := { X := 0, Y := 0 }, GetZoom := 1,
          GetSize := { X := 200, Y := 300 } }).Q = ((-1 : Int) : ℝ) := by
      simp only [HexGrid.viewStartHex, HexGrid.viewTopLeft, HexGrid.ScreenToWorld,
        NewVector2D, NewHexGrid, NewHexLayout, LayoutPointy, HexLayout.Vector2DToHex,
        Hex.Round]
      apply mathRound_eq_of_lt
      · push_cast
        linarith
      · push_cast
        linarith
    have he : ((NewHexGrid (LayoutPointy Real.sqrt) { X := 10, Y := 10 }).viewEndHex
        { GetPosition := { X := 0, Y := 0 }, GetZoom := 1,
          GetSize := { X := 200, Y := 300 } }).Q = ((1 : Int) : ℝ) := by
      simp only [HexGrid.viewEndHex, HexGrid.viewBottomRight, HexGrid.ScreenToWorld,
        NewVector2D, NewHexGrid, NewHexLayout, LayoutPointy, HexLayout.Vector2DToHex,
        Hex.Round]
      apply mathRound_eq_of_lt
      · push_cast
        linarith
      · push_cast
        linarith
    rw [hs, he] at hq
    have hmax : max (((-1 : Int) : ℝ)) (((1 : Int) : ℝ)) = ((1 : Int) : ℝ) := by norm_num
    have h2 : wrap64 ((1 : Int) + 1) = 2 := by decide
    rw [hmax, float64ToIntBounded_intCast _ _ (by decide), h2] at hq
    omega

/-- C14 (as stated, refuted): with a viewport `4 * 10^19` wide on the pointy grid of size
`(1, 1)`, the hex coordinate `q` of the top left view corner is below `-10^19`, out of
the range of `int`; where the platform converts such a value to `-2^63` (amd64), the lower
loop bound wraps to `2^63 - 1`, no hex is enumerated and `Hex(0,0)` is not returned. -/
theorem C14_GetVisibleHexes_huge_view :
    ({ Q := 0, R := 0 } : Hex ℝ) ∉
      ((NewHexGrid (LayoutPointy Real.sqrt) { X := 1, Y := 1 }).GetVisibleHexes
        (fun _ => -(2 ^ 63))
        { GetPosition := { X := 0, Y := 0 }, GetZoom := 1,
          GetSize := { X := 40000000000000000000, Y := 300 } }).1 := by
  obtain ⟨hlo, hhi⟩ := sqrt_three_bounds
  intro hmem
  rw [HexGrid.mem_GetVisibleHexes] at hmem
  obtain ⟨q, r, ⟨hq, -⟩, -, -, hx⟩ := hmem
  have hq0 : q = 0 := by
    have := (Hex.mk.inj hx).1
    exact_mod_cast this.symm
  have hs : ((NewHexGrid (LayoutPointy Real.sqrt) { X := 1, Y := 1 }).viewStartHex
      { GetPosition := { X := 0, Y := 0 }, GetZoom := 1,
        GetSize := { X := 40000000000000000000, Y := 300 } }).Q
      < ((-(2 ^ 63) - 1 : Int) : ℝ) := by
    simp only [HexGrid.viewStartHex, HexGrid.viewTopLeft, HexGrid.ScreenToWorld,
      NewVector2D, NewHexGrid, NewHexLayout, LayoutPointy, HexLayout.Vector2DToHex,
      Hex.Round]
    refine lt_of_le_of_lt (mathRound_le_add_half _) ?_
    push_cast
    norm_num
    linarith
  have hmin := lt_of_le_of_lt (min_le_left _
    ((NewHexGrid (LayoutPointy Real.sqrt) { X := 1, Y := 1 }).viewEndHex
      { GetPosition := { X := 0, Y := 0 }, GetZoom := 1,
        GetSize := { X := 40000000000000000000, Y := 300 } }).Q) hs
  rw [float64ToIntBounded_of_lt _ _ hmin] at hq
  have hwrap : wrap64 (-(2 ^ 63) - 1) = 2 ^ 63 - 1 := by decide
  rw [hwrap] at hq
  omega

/-- C14 (amended): for a grid built by `NewHexGrid` with either orientation and positive
hex size, and a camera at world position `(0,0)` with zoom `1` and a viewport of
non-negative width and height at most `2^62` hex sizes each, `GetVisibleHexes(camera)`
contains `Hex(0,0)`, whatever the platform does with an out-of-range conversion. -/
theorem C14_GetVisibleHexes_contains_origin (outOfRange : ℝ → Int)
    (hexSize viewport : Vector2D ℝ) (hsx : 0 < hexSize.X) (hsy : 0 < hexSize.Y)
    (hw : 0 ≤ viewport.X) (hh : 0 ≤ viewport.Y) (hW : viewport.X ≤ 2 ^ 62 * hexSize.X)
    (hH : viewport.Y ≤ 2 ^ 62 * hexSize.Y) :
    ({ Q := 0, R := 0 } : Hex ℝ) ∈
        ((NewHexGrid (LayoutPointy Real.sqrt) hexSize).GetVisibleHexes outOfRange
          { GetPosition := { X := 0, Y := 0 }, GetZoom := 1, GetSize := viewport }).1 ∧
      ({ Q := 0, R := 0 } : Hex ℝ) ∈
        ((NewHexGrid (LayoutFlat Real.sqrt) hexSize).GetVisibleHexes outOfRange
          { GetPosition := { X := 0, Y := 0 }, GetZoom := 1, GetSize := viewport }).1 :=
  ⟨HexGrid.origin_mem_of_entries_le_one outOfRange _ LayoutPointy_entries_le_one hexSize
      viewport hsx hsy hw hh hW hH,
    HexGrid.origin_mem_of_entries_le_one outOfRange _ LayoutFlat_entries_le_one hexSize
      viewport hsx hsy hw hh hW hH⟩

/-- C14 (amended) at a concrete input: hex size `(10, 10)`, viewport `(200, 300)`, on a
platform that converts out-of-range values to `-2^63`. -/
theorem C14_GetVisibleHexes_contains_origin_witness :
    ({ Q := 0, R := 0 } : Hex ℝ) ∈
        ((NewHexGrid (LayoutPointy Real.sqrt) { X := 10, Y := 10 }).GetVisibleHexes
          (fun _ => -(2 ^ 63))
          { GetPosition := { X := 0, Y := 0 }, GetZoom := 1,
            GetSize := { X := 200, Y := 300 } }).1 ∧
      ({ Q := 0, R := 0 } : Hex ℝ) ∈
        ((NewHexGrid (LayoutFlat Real.sqrt) { X := 10, Y := 10 }).GetVisibleHexes
          (fun _ => -(2 ^ 63))
          { GetPosition := { X := 0, Y := 0 }, GetZoom := 1,
            GetSize := { X := 200, Y := 300 } }).1 :=
  C14_GetVisibleHexes_contains_origin (fun _ => -(2 ^ 63)) { X := 10, Y := 10 }
    { X := 200, Y := 300 } (by norm_num) (by norm_num) (by norm_num) (by norm_num)
    (by norm_num) (by norm_num)

/-- C15 (code defect): `LineTo` does not return `d + 1` hexes for the hex distance `d`.
Its length is one more than the truncated value of `Distance`, which is not the hex
distance: from `(0,0)` to `(1,-1)`, at hex distance `1`, it returns the three hexes
`(0,0), (0,0), (1,-1)`. -/
theorem C15_LineTo_length_off (nan : Int) :
    Hex.LineTo (int64ToFloat64 ℚ) (float64ToInt64 nan) { Q := 0, R := 0 } { Q := 1, R := -1 }
        = [{ Q := 0, R := 0 }, { Q := 0, R := 0 }, { Q := 1, R := -1 }] ∧
      specDistance ℚ { Q := 0, R := 0 } { Q := 1, R := -1 } + 1 = 2 := by
  constructor
  · have hd : Hex.Distance (int64ToFloat64 ℚ) ({ Q := 0, R := 0 } : Hex Int)
        { Q := 1, R := -1 } = ((2 : Int) : ℚ) := by
      norm_num [Hex.Distance, int64ToFloat64]
    have h3 : List.range 3 = [0, 1, 2] := rfl
    have e0 : float64ToInt (0 : ℚ) = 0 := float64ToInt_of_nonneg 0 0 le_rfl (by norm_num)
      (by norm_num)
    have e1 : float64ToInt (1 : ℚ) = 1 := float64ToInt_of_nonneg 1 1 (by norm_num)
      (by norm_num) (by norm_num)
    have e2 : float64ToInt (-1 : ℚ) = -1 := float64ToInt_of_neg (-1) (-1) (by norm_num)
      (by norm_num) (by norm_num)
    have e3 : float64ToInt (1 / 2 : ℚ) = 0 := float64ToInt_of_nonneg _ 0 (by norm_num)
      (by norm_num) (by norm_num)
    have e4 : float64ToInt (-(1 / 2) : ℚ) = 0 := float64ToInt_of_neg _ 0 (by norm_num)
      (by norm_num) (by norm_num)
    have ht : ((2 : Int) + 1).toNat = 3 := rfl
    unfold Hex.LineTo
    simp only [hd, float64ToInt_intCast, ht, h3, List.map_cons, List.map_nil]
    norm_num [float64Div, float64ToInt64, int64ToFloat64, e0, e1, e2, e3, e4]
  · norm_num [specDistance]

/-- C16 (code defect): `h.LineTo(h)` has one element, but that element is not `h`. The
distance is `0`, the interpolation parameter is `0 / 0`, a NaN, and both coordinates are
the conversion of a NaN to `int64`: the line is `[h]` only if `h` happens to have that
implementation-dependent value in both coordinates. -/
theorem C16_LineTo_self_is_nan (nan : Int) (h : Hex Int) :
    Hex.LineTo (int64ToFloat64 ℚ) (float64ToInt64 nan) h h = [{ Q := nan, R := nan }] ∧
      (Hex.LineTo (int64ToFloat64 ℚ) (float64ToInt64 nan) h h = [h] ↔
        h = { Q := nan, R := nan }) := by
  have hd : Hex.Distance (int64ToFloat64 ℚ) h h = ((0 : Int) : ℚ) := by
    simp [Hex.Distance]
  have h1 : List.range 1 = [0] := rfl
  have hl : Hex.LineTo (int64ToFloat64 ℚ) (float64ToInt64 nan) h h
      = [{ Q := nan, R := nan }] := by
    unfold Hex.LineTo
    simp only [hd, float64ToInt_intCast]
    simp [h1, float64Div, float64ToInt64]
  refine ⟨hl, ?_⟩
  rw [hl]
  constructor
  · intro e
    exact (List.cons.inj e).1.symm
  · intro e
    rw [e]

/-- C17 (as stated, refuted): `(-2^63, 0).Divide(-1)` succeeds, but its first coordinate
is `-2^63`, not the truncated quotient `2^63`. -/
theorem C17_Divide_min_by_neg_one :
    ¬ ((-1 : Int) ≠ 0 →
      Hex.Divide ({ Q := -(2 ^ 63), R := 0 } : Hex Int) (-1)
        = some { Q := Int.tdiv (-(2 ^ 63)) (-1), R := Int.tdiv 0 (-1) }) := by
  intro h
  have h2 := h (by decide)
  have h3 : Hex.Divide ({ Q := -(2 ^ 63), R := 0 } : Hex Int) (-1)
      = some { Q := -(2 ^ 63), R := 0 } := by decide
  rw [h3] at h2
  revert h2
  decide

/-- C17 (amended): for every `Hex[int64]` `a` and `int64` scalar `k`, `a.Divide(k)` faults
if and only if `k = 0`; when `k ≠ 0` it succeeds, and each coordinate of the result is the
quotient of the corresponding coordinate of `a` by `k` truncated toward zero, except that
the coordinate `-2^63` divided by `-1` gives `-2^63`. -/
theorem C17_Divide_truncates (a : Hex Int) (k : Int) (hq : InInt64 a.Q) (hr : InInt64 a.R) :
    (a.Divide k = none ↔ k = 0) ∧
      (k ≠ 0 → ∃ res : Hex Int, a.Divide k = some res ∧
        res.Q = (if a.Q = -(2 ^ 63) ∧ k = -1 then -(2 ^ 63) else Int.tdiv a.Q k) ∧
        res.R = (if a.R = -(2 ^ 63) ∧ k = -1 then -(2 ^ 63) else Int.tdiv a.R k)) := by
  have hcoord : ∀ x : Int, InInt64 x → k ≠ 0 →
      wrap64 (Int.tdiv x k) = (if x = -(2 ^ 63) ∧ k = -1 then -(2 ^ 63) else Int.tdiv x k) := by
    intro x hx hk
    split
    · rename_i hc
      rw [hc.1, hc.2]
      rfl
    · rename_i hc
      exact wrap64_eq_self (tdiv_InInt64 x k hx hk hc)
  by_cases hk : k = 0
  · subst hk
    refine ⟨⟨fun _ => rfl, fun _ => ?_⟩, fun h => absurd rfl h⟩
    simp only [Hex.Divide, int64_div_zero]
  · refine ⟨⟨fun h => ?_, fun h => absurd h hk⟩, fun _ => ?_⟩
    · simp only [Hex.Divide, int64_div_of_ne_zero _ _ hk] at h
      cases h
    · refine ⟨{ Q := wrap64 (Int.tdiv a.Q k), R := wrap64 (Int.tdiv a.R k) }, ?_,
        hcoord a.Q hq hk, hcoord a.R hr hk⟩
      simp only [Hex.Divide, int64_div_of_ne_zero _ _ hk]

/-- C17 (amended) at a concrete input: `(-5, 7).Divide(2) = (-2, 3)`. -/
theorem C17_Divide_truncates_witness :
    (Hex.Divide ({ Q := -5, R := 7 } : Hex Int) 2 = none ↔ (2 : Int) = 0) ∧
      ((2 : Int) ≠ 0 → ∃ res : Hex Int,
        Hex.Divide ({ Q := -5, R := 7 } : Hex Int) 2 = some res ∧
        res.Q = (if (-5 : Int) = -(2 ^ 63) ∧ (2 : Int) = -1 then -(2 ^ 63)
          else Int.tdiv (-5) 2) ∧
        res.R = (if (7 : Int) = -(2 ^ 63) ∧ (2 : Int) = -1 then -(2 ^ 63)
          else Int.tdiv 7 2)) :=
  C17_Divide_truncates { Q := -5, R := 7 } 2 (by decide) (by decide)

/-- C18: for every `Hex[int64]` `a` and every `int64` scalar `k ≠ 0` such that `a.Q * k`
and `a.R * k` stay within the `int64` range, `a.Multiply(k).Divide(k) = a`. -/
theorem C18_Multiply_Divide (a : Hex Int) (k : Int) (hq : InInt64 a.Q) (hr : InInt64 a.R)
    (hk : k ≠ 0) (hqk : InInt64 (a.Q * k)) (hrk : InInt64 (a.R * k)) :
    (a.Multiply k).Divide k = some a := by
  obtain ⟨q, r⟩ := a
  simp only at hq hr hqk hrk
  simp only [Hex.Multiply, Hex.Divide, Numeric.mul, int64_div_of_ne_zero _ _ hk,
    wrap64_eq_self hqk, wrap64_eq_self hrk, Int.mul_tdiv_cancel _ hk, wrap64_eq_self hq,
    wrap64_eq_self hr]

/-- C18 at a concrete input: `(-5, 7)` multiplied and divided by `-3`. -/
theorem C18_Multiply_Divide_witness :
    (Hex.Multiply ({ Q := -5, R := 7 } : Hex Int) (-3)).Divide (-3)
      = some { Q := -5, R := 7 } :=
  C18_Multiply_Divide { Q := -5, R := 7 } (-3) (by decide) (by decide) (by decide)
    (by decide) (by decide)

/-- C19: for all `Hex[int64]` values `a` and `b`, with `Add` and `Subtract` computed
componentwise in wrapping `int64` arithmetic, `a.Add(b).Subtract(b) = a`. -/
theorem C19_Add_Subtract (a b : Hex Int) (hq : InInt64 a.Q) (hr : InInt64 a.R) :
    (a.Add b).Subtract b = a := by
  obtain ⟨q, r⟩ := a
  simp only at hq hr
  simp only [Hex.Add, Hex.Subtract, Numeric.add, Numeric.sub, wrap64_sub_wrap64_add _ _ hq,
    wrap64_sub_wrap64_add _ _ hr]

/-- C19 at a concrete input where the sum overflows: `(2^63 - 1, -2^63)` and `(5, -7)`. -/
theorem C19_Add_Subtract_witness :
    (Hex.Add ({ Q := 2 ^ 63 - 1, R := -(2 ^ 63) } : Hex Int) { Q := 5, R := -7 }).Subtract
        { Q := 5, R := -7 }
      = { Q := 2 ^ 63 - 1, R := -(2 ^ 63) } :=
  C19_Add_Subtract { Q := 2 ^ 63 - 1, R := -(2 ^ 63) } { Q := 5, R := -7 } (by decide)
    (by decide)

/-- C20: for all integer hexes `a` and `b` (the conversion to `float64` being exact),
`Distance` is symmetric and vanishes on the diagonal: `a.Distance(b) = b.Distance(a)` and
`a.Distance(a) = 0`. -/
theorem C20_Distance_symm_diag (a b : Hex Int) :
    Hex.Distance (int64ToFloat64 ℝ) a b = Hex.Distance (int64ToFloat64 ℝ) b a ∧
      Hex.Distance (int64ToFloat64 ℝ) a a = 0 := by
  constructor
  · simp only [Hex.Distance]
    rw [abs_sub_comm (int64ToFloat64 ℝ a.Q), abs_sub_comm (int64ToFloat64 ℝ a.R),
      abs_sub_comm (-int64ToFloat64 ℝ a.Q - int64ToFloat64 ℝ a.R)]
  · simp [Hex.Distance]

/-- C21: reading `float64` arithmetic as exact real arithmetic, for every grid and camera
with zoom `≠ 0`, every hex `x` returned by `GetVisibleHexes(camera)` has integer-valued
coordinates and its projected center lies within the unpadded world rectangle between
`topLeft = ScreenToWorld((0,0))` and `bottomRight = ScreenToWorld(camera size)`. -/
theorem C21_GetVisibleHexes_in_view (outOfRange : ℝ → Int) (grid : HexGrid ℝ)
    (camera : Camera ℝ) (_hz : camera.GetZoom ≠ 0) (x : Hex ℝ)
    (hx : x ∈ (grid.GetVisibleHexes outOfRange camera).1) :
    (∃ q r : Int, x = { Q := (q : ℝ), R := (r : ℝ) }) ∧
      (grid.ScreenToWorld (NewVector2D 0 0) camera).1.X ≤ (grid.Layout.HexToVector2D x).X ∧
      (grid.Layout.HexToVector2D x).X ≤
        (grid.ScreenToWorld (NewVector2D camera.GetSize.X camera.GetSize.Y) camera).1.X ∧
      (grid.ScreenToWorld (NewVector2D 0 0) camera).1.Y ≤ (grid.Layout.HexToVector2D x).Y ∧
      (grid.Layout.HexToVector2D x).Y ≤
        (grid.ScreenToWorld (NewVector2D camera.GetSize.X camera.GetSize.Y) camera).1.Y := by
  rw [HexGrid.mem_GetVisibleHexes] at hx
  obtain ⟨q, r, -, -, hin, rfl⟩ := hx
  exact ⟨⟨q, r, rfl⟩, hin⟩

/-- C21 at a concrete input: the hex `(0,0)` returned on the pointy grid of size
`(10, 10)` for a camera at `(0,0)` with zoom `1` and a `200 x 300` view. -/
theorem C21_GetVisibleHexes_in_view_witness :
    (∃ q r : Int, ({ Q := 0, R := 0 } : Hex ℝ) = { Q := (q : ℝ), R := (r : ℝ) }) ∧
      ((NewHexGrid (LayoutPointy Real.sqrt) { X := 10, Y := 10 }).ScreenToWorld
          (NewVector2D 0 0)
          { GetPosition := { X := 0, Y := 0 }, GetZoom := 1,
            GetSize := { X := 200, Y := 300 } }).1.X ≤
        ((NewHexGrid (LayoutPointy Real.sqrt) { X := 10, Y := 10 }).Layout.HexToVector2D
          { Q := 0, R := 0 }).X ∧
      ((NewHexGrid (LayoutPointy Real.sqrt) { X := 10, Y := 10 }).Layout.HexToVector2D
          { Q := 0, R := 0 }).X ≤
        ((NewHexGrid (LayoutPointy Real.sqrt) { X := 10, Y := 10 }).ScreenToWorld
          (NewVector2D 200 300)
          { GetPosition := { X := 0, Y := 0 }, GetZoom := 1,
            GetSize := { X := 200, Y := 300 } }).1.X ∧
      ((NewHexGrid (LayoutPointy Real.sqrt) { X := 10, Y := 10 }).ScreenToWorld
          (NewVector2D 0 0)
          { GetPosition := { X := 0, Y := 0 }, GetZoom := 1,
            GetSize := { X := 200, Y := 300 } }).1.Y ≤
        ((NewHexGrid (LayoutPointy Real.sqrt) { X := 10, Y := 10 }).Layout.HexToVector2D
          { Q := 0, R := 0 }).Y ∧
      ((NewHexGrid (LayoutPointy Real.sqrt) { X := 10, Y := 10 }).Layout.HexToVector2D
          { Q := 0, R := 0 }).Y ≤
        ((NewHexGrid (LayoutPointy Real.sqrt) { X := 10, Y := 10 }).ScreenToWorld
          (NewVector2D 200 300)
          { GetPosition := { X := 0, Y := 0 }, GetZoom := 1,
            GetSize := { X := 200, Y := 300 } }).1.Y :=
  C21_GetVisibleHexes_in_view (fun _ => -(2 ^ 63))
    (NewHexGrid (LayoutPointy Real.sqrt) { X := 10, Y := 10 })
    { GetPosition := { X := 0, Y := 0 }, GetZoom := 1, GetSize := { X := 200, Y := 300 } }
    (by norm_num) { Q := 0, R := 0 }
    (HexGrid.origin_mem_of_entries_le_one _ _ LayoutPointy_entries_le_one _ _ (by norm_num)
      (by norm_num) (by norm_num) (by norm_num) (by norm_num) (by norm_num))

/-- C22: for every integer hex `h` and every radius `r > 0`, `h.Circle(r)` is a cyclic
rotation of the ring of radius `r` centered at `h + (r, 0)`: with
`ring = h.Add(Hex(r,0)).SpiralRing(r)`, for every `k` in `0..6r-1` the element
`h.Circle(r)[k]` exists and is `ring[(k + 4r - 1) mod 6r]`. -/
theorem C22_Circle_is_rotated_ring (h : Hex Int) (r : Int) (hr : 0 < r) (k : Nat)
    (hk : k < 6 * r.toNat) :
    ∃ x : Hex Int, (h.Circle r)[k]? = some x ∧
      ((h.Add (Hex.NewHex r 0)).SpiralRing r)[(k + 4 * r.toNat - 1) % (6 * r.toNat)]?
        = some x := by
  obtain ⟨n, rfl⟩ := Int.eq_ofNat_of_zero_le hr.le
  have hn : 0 < n := by omega
  rw [Int.toNat_ofNat] at hk ⊢
  have hlen : ((h.Add (Hex.NewHex (n : Int) 0)).SpiralRing (n : Int)).length = 6 * n := by
    rw [Hex.SpiralRing_length_nat _ _ hr, Int.toNat_ofNat]
  have hclen : (h.Circle (n : Int)).length = 6 * n := by
    rw [Hex.Circle_length_nat _ _ hr.le, Int.toNat_ofNat]
  have hidx : k + 4 * n - 1 = k + (4 * n - 1) := by omega
  refine ⟨(h.Circle (n : Int))[k], List.getElem?_eq_getElem (by omega), ?_⟩
  rw [← List.getElem?_eq_getElem (by omega), Hex.Circle_eq_rotate h n hn,
    List.getElem?_rotate (by omega), hlen, hidx]

/-- C22 at a concrete input: the element `4` of `Circle(2)` around `(3, -1)`. -/
theorem C22_Circle_is_rotated_ring_witness :
    ∃ x : Hex Int, (Hex.Circle ({ Q := 3, R := -1 } : Hex Int) 2)[4]? = some x ∧
      ((Hex.Add ({ Q := 3, R := -1 } : Hex Int) (Hex.NewHex 2 0)).SpiralRing 2)[
          (4 + 4 * (2 : Int).toNat - 1) % (6 * (2 : Int).toNat)]?
        = some x :=
  C22_Circle_is_rotated_ring { Q := 3, R := -1 } 2 (by decide) 4 (by decide)

/-- C23 (as stated, refuted): around the `int64` hex `(2^63 - 1, 0)` the spiral of radius
`1` wraps around and lists `(-2^63, 0)`, which is not at hex distance at most `1`. -/
theorem C23_Spiral_wraps_at_max :
    ¬ ((Hex.Spiral ({ Q := 2 ^ 63 - 1, R := 0 } : Hex Int) 1).Nodup ∧
      ∀ x : Hex Int, x ∈ Hex.Spiral ({ Q := 2 ^ 63 - 1, R := 0 } : Hex Int) 1 ↔
        (|x.Q - (2 ^ 63 - 1)| + |x.R - 0| + |(x.Q - (2 ^ 63 - 1)) + (x.R - 0)|) / 2 ≤ 1) := by
  rintro ⟨-, hmem⟩
  have hin : ({ Q := -(2 ^ 63), R := 0 } : Hex Int) ∈
      Hex.Spiral ({ Q := 2 ^ 63 - 1, R := 0 } : Hex Int) 1 := by decide
  have := (hmem _).1 hin
  norm_num at this

/-- C23 (amended): for every `int64` hex `h` and radius `r ≥ 0` such that `h.Q - r`,
`h.Q + r`, `h.R - r` and `h.R + r` are all `int64` values, `h.Spiral r` lists the filled
hexagon of radius `r` around `h` exactly once each: no hex occurs twice, and a hex `x`
occurs if and only if its hex distance from `h` is at most `r`. -/
theorem C23_Spiral_enumerates_hexagon (h : Hex Int) (r : Int) (hr : 0 ≤ r)
    (hQ : InInt64 (h.Q - r) ∧ InInt64 (h.Q + r))
    (hR : InInt64 (h.R - r) ∧ InInt64 (h.R + r)) :
    (h.Spiral r).Nodup ∧
      ∀ x : Hex Int, x ∈ h.Spiral r ↔
        (|x.Q - h.Q| + |x.R - h.R| + |(x.Q - h.Q) + (x.R - h.R)|) / 2 ≤ r := by
  obtain ⟨n, rfl⟩ := Int.eq_ofNat_of_zero_le hr
  exact Hex.Spiral_int_spec h n hQ hR

/-- C23 (amended) at a concrete input: the spiral of radius `2` around `(3, -1)`. -/
theorem C23_Spiral_enumerates_hexagon_witness :
    (Hex.Spiral ({ Q := 3, R := -1 } : Hex Int) 2).Nodup ∧
      ∀ x : Hex Int, x ∈ Hex.Spiral ({ Q := 3, R := -1 } : Hex Int) 2 ↔
        (|x.Q - 3| + |x.R - (-1)| + |(x.Q - 3) + (x.R - (-1))|) / 2 ≤ 2 :=
  C23_Spiral_enumerates_hexagon { Q := 3, R := -1 } 2 (by decide)
    ⟨by decide, by decide⟩ ⟨by decide, by decide⟩

/-- C25: for all distinct integer hexes `a` and `b` (the conversion to `float64` being
exact), `a.LineTo(b)` has at least two elements, its first element is `a` and its last
element is `b`. -/
theorem C25_LineTo_ends (nan : Int) (a b : Hex Int) (hab : a ≠ b) :
    2 ≤ (Hex.LineTo (int64ToFloat64 ℝ) (float64ToInt64 nan) a b).length ∧
      (Hex.LineTo (int64ToFloat64 ℝ) (float64ToInt64 nan) a b).head? = some a ∧
      (Hex.LineTo (int64ToFloat64 ℝ) (float64ToInt64 nan) a b).getLast? = some b :=
  Hex.LineTo_ends nan a b hab

/-- C25 at a concrete input: the line from `(0,0)` to `(3,-1)`. -/
theorem C25_LineTo_ends_witness :
    2 ≤ (Hex.LineTo (int64ToFloat64 ℝ) (float64ToInt64 0) ({ Q := 0, R := 0 } : Hex Int)
        { Q := 3, R := -1 }).length ∧
      (Hex.LineTo (int64ToFloat64 ℝ) (float64ToInt64 0) ({ Q := 0, R := 0 } : Hex Int)
        { Q := 3, R := -1 }).head? = some { Q := 0, R := 0 } ∧
      (Hex.LineTo (int64ToFloat64 ℝ) (float64ToInt64 0) ({ Q := 0, R := 0 } : Hex Int)
        { Q := 3, R := -1 }).getLast? = some { Q := 3, R := -1 } :=
  C25_LineTo_ends 0 { Q := 0, R := 0 } { Q := 3, R := -1 } (by decide)

end Claims

end Maths
